import Mathlib
/-!
Verification of the candidate-resolution and evidence pipeline of the
next-updates repository.  The TypeScript sources are shallowly embedded:
pure functions become Lean functions, JavaScript numbers become Nat/Int,
nullable values become Option, thrown exceptions become Except, and the
external effects (file reads, JSON/YAML parsing by external libraries,
HTTP fetches) become explicit oracle parameters.
-/

/-! # Semantic versions (npm `semver` package)

The repository compares versions with the npm `semver` library
(`parse`, `compare`, `valid`, `gte`, `lte`).  We embed the library
behaviour: the strict (non-loose) version grammar, the parsed
representation with numeric/alphanumeric prerelease identifiers, and
the comparison order. -/

/-- A prerelease identifier: the npm SemVer class stores an identifier as a
JavaScript number when it is purely numeric and below MAX_SAFE_INTEGER,
otherwise as a string. -/
inductive PreId where
  | num (n : Nat)
  | str (s : String)
deriving Repr, DecidableEq
/-- Parsed semantic version (build metadata is kept but ignored by compare,
matching the npm SemVer class). -/
structure SemVer where
  major : Nat
  minor : Nat
  patch : Nat
  prerelease : List PreId
  build : List String
deriving Repr, DecidableEq
/-- JavaScript Number.MAX_SAFE_INTEGER. -/
def maxSafeInteger : Nat := 2 ^ 53 - 1
/-- Digits of a decimal numeral to its value. -/
def digitsToNat (cs : List Char) : Nat :=
  cs.foldl (fun n c => n * 10 + (c.toNat - 48)) 0
/-- Character class [0-9A-Za-z-] used by semver identifiers. -/
def isIdentChar (c : Char) : Bool :=
  c.isDigit || c.isAlpha || c = '-'
/-- A main-version numeral per the strict grammar: 0 or [1-9][0-9]*. -/
def isStrictNumeral (cs : List Char) : Bool :=
  !cs.isEmpty && cs.all (·.isDigit) && !(cs.head? = some '0' && cs.length > 1)
/-- A prerelease identifier per the strict grammar:
0 or [1-9][0-9]* or a [0-9A-Za-z-]+ string containing a non-digit. -/
def isValidPreIdChars (cs : List Char) : Bool :=
  !cs.isEmpty && cs.all isIdentChar &&
    (!cs.all (·.isDigit) || !(cs.head? = some '0' && cs.length > 1))
/-- A build identifier per the strict grammar: [0-9A-Za-z-]+. -/
def isValidBuildIdChars (cs : List Char) : Bool :=
  !cs.isEmpty && cs.all isIdentChar
/-- Conversion of a (valid) prerelease identifier, matching the SemVer
constructor: purely numeric identifiers strictly below MAX_SAFE_INTEGER
become numbers, everything else stays a string. -/
def toPreId (cs : List Char) : PreId :=
  if cs.all (·.isDigit) && digitsToNat cs < maxSafeInteger then
    .num (digitsToNat cs)
  else
    .str (String.mk cs)
/-- Trim ASCII whitespace from both ends (String.prototype.trim). -/
def trimChars (cs : List Char) : List Char :=
  ((cs.dropWhile (·.isWhitespace)).reverse.dropWhile (·.isWhitespace)).reverse
/-- Parse the dash-separated tail of a version: prerelease part (up to the
first plus sign) and build part. -/
def parsePreAndBuild (preChars : List Char) (buildChars : Option (List Char)) :
    Option (List PreId × List String) := do
  let preIds := preChars.splitOn '.'
  if preIds.all isValidPreIdChars then
    let pre := preIds.map toPreId
    match buildChars with
    | none => some (pre, [])
    | some bs =>
      let buildIds := bs.splitOn '.'
      if buildIds.all isValidBuildIdChars then
        some (pre, buildIds.map String.mk)
      else
        none
  else
    none
/-- Parse a build part alone. -/
def parseBuildOnly (bs : List Char) : Option (List String) :=
  let buildIds := bs.splitOn '.'
  if buildIds.all isValidBuildIdChars then
    some (buildIds.map String.mk)
  else
    none
/-- Parse the trimmed character list of a semver string, following the
strict FULL regular expression of the npm semver package:
an optional leading v, three dot-separated strict numerals, an optional
dash-introduced prerelease list and an optional plus-introduced build list.
Numeric components above MAX_SAFE_INTEGER are rejected (the constructor
throws). -/
def parseSemVerCore (cs0 : List Char) : Option SemVer := do
  let cs := match cs0 with
    | 'v' :: rest => rest
    | _ => cs0
  let (d1, r1) := cs.span (·.isDigit)
  if !isStrictNumeral d1 || digitsToNat d1 > maxSafeInteger then none
  else match r1 with
  | '.' :: r1b =>
    let (d2, r2) := r1b.span (·.isDigit)
    if !isStrictNumeral d2 || digitsToNat d2 > maxSafeInteger then none
    else match r2 with
    | '.' :: r2b =>
      let (d3, r3) := r2b.span (·.isDigit)
      if !isStrictNumeral d3 || digitsToNat d3 > maxSafeInteger then none
      else
        let mk := fun (pre : List PreId) (build : List String) =>
          SemVer.mk (digitsToNat d1) (digitsToNat d2) (digitsToNat d3) pre build
        match r3 with
        | [] => some (mk [] [])
        | '-' :: tail =>
          let (preChars, buildPart) := tail.span (· ≠ '+')
          match buildPart with
          | [] => do
            let (pre, build) ← parsePreAndBuild preChars none
            some (mk pre build)
          | '+' :: bs => do
            let (pre, build) ← parsePreAndBuild preChars (some bs)
            some (mk pre build)
          | _ => none
        | '+' :: bs => do
          let build ← parseBuildOnly bs
          some (mk [] build)
        | _ => none
    | _ => none
  | _ => none
/-- semver.parse: null unless the input is a string of at most 256
characters that matches the strict grammar after trimming. -/
def parseSemVer (s : String) : Option SemVer :=
  if s.data.length > 256 then none
  else parseSemVerCore (trimChars s.data)
/-- Three-way comparison of natural numbers as the JavaScript numeric
compareIdentifiers: -1, 0, or 1. -/
def cmpNat (a b : Nat) : Int :=
  if a < b then -1 else if b < a then 1 else 0
/-- UTF-16 code-unit lexicographic comparison of strings (the JavaScript
less-than on strings); identifiers are ASCII so char values coincide with
code units. -/
def cmpCharList : List Char → List Char → Int
  | [], [] => 0
  | [], _ :: _ => -1
  | _ :: _, [] => 1
  | a :: as, b :: bs =>
    if a.val < b.val then -1
    else if b.val < a.val then 1
    else cmpCharList as bs
/-- compareIdentifiers of the npm semver package: numbers compare
numerically, a number is below any non-numeric string, strings compare
lexicographically. -/
def cmpId : PreId → PreId → Int
  | .num a, .num b => cmpNat a b
  | .num _, .str _ => -1
  | .str _, .num _ => 1
  | .str a, .str b => cmpCharList a.data b.data
/-- Pairwise prerelease identifier comparison loop of SemVer.comparePre:
a shorter list that is a prefix compares below. -/
def cmpIds : List PreId → List PreId → Int
  | [], [] => 0
  | _ :: _, [] => 1
  | [], _ :: _ => -1
  | a :: as, b :: bs =>
    let c := cmpId a b
    if c = 0 then cmpIds as bs else c
/-- SemVer.comparePre: a version with prerelease identifiers sorts below
one without; two prerelease lists compare pairwise. -/
def comparePre (a b : List PreId) : Int :=
  match a, b with
  | [], [] => 0
  | _ :: _, [] => -1
  | [], _ :: _ => 1
  | _, _ => cmpIds a b
/-- semver.compare on parsed versions: main components in priority order,
then the prerelease lists. -/
def compareSemVer (a b : SemVer) : Int :=
  let m := cmpNat a.major b.major
  if m ≠ 0 then m
  else
    let n := cmpNat a.minor b.minor
    if n ≠ 0 then n
    else
      let p := cmpNat a.patch b.patch
      if p ≠ 0 then p
      else comparePre a.prerelease b.prerelease
/-- SemVer.format: the canonical version string, without build metadata. -/
def formatSemVer (v : SemVer) : String :=
  let preStr : PreId → String
    | .num n => Nat.repr n
    | .str s => s
  Nat.repr v.major ++ "." ++ Nat.repr v.minor ++ "." ++ Nat.repr v.patch ++
    (match v.prerelease with
     | [] => ""
     | ids => "-" ++ String.intercalate "." (ids.map preStr))
/-- semver.valid: the formatted version string of a parseable input,
null otherwise. -/
def semverValid (s : String) : Option String :=
  (parseSemVer s).map formatSemVer
/-- semver.compare on version strings.  The npm function throws on
unparseable input; every call site in the embedded code passes strings
already validated by semverValid, so the default 0 branch is unreachable
there. -/
def semverCompareStr (a b : String) : Int :=
  match parseSemVer a, parseSemVer b with
  | some x, some y => compareSemVer x y
  | _, _ => 0
/-- semver.gte on version strings. -/
def semverGteStr (a b : String) : Bool :=
  semverCompareStr a b ≥ 0
/-- semver.lte on version strings. -/
def semverLteStr (a b : String) : Bool :=
  semverCompareStr a b ≤ 0
/-! # Risk classifier (src/core/candidates/risk-filter.ts) -/

/-- Risk groups of classifyRiskGroup. -/
inductive RiskGroup where
  | major
  | minor
  | patch
  | prerelease
  | none
  | unknown
deriving Repr, DecidableEq
/-- The risk filter option values; the source uses the string literals
all, major-only, non-major, prerelease-only, unknown-only. -/
inductive NextUpdatesRisk where
  | all
  | majorOnly
  | nonMajor
  | prereleaseOnly
  | unknownOnly
deriving Repr, DecidableEq
/-- classifyRiskGroup.  The source guard (negated conjunction of the two
version strings) treats both null and the empty string as missing, hence
the explicit empty-string test. -/
def classifyRiskGroup : Option String → Option String → RiskGroup
  | some currentVersion, some targetVersion =>
    if currentVersion = "" ∨ targetVersion = "" then .unknown
    else
      match parseSemVer currentVersion, parseSemVer targetVersion with
      | some current, some target =>
        let comparison := compareSemVer current target
        if comparison = 0 then .none
        else if comparison > 0 then .unknown
        else if target.prerelease.length > 0 then .prerelease
        else if target.major > current.major then .major
        else if target.minor > current.minor then .minor
        else if target.patch > current.patch then .patch
        else .none
      | _, _ => .unknown
  | _, _ => .unknown
/-- matchesRiskFilter. -/
def matchesRiskFilter (risk : NextUpdatesRisk) (group : RiskGroup) : Bool :=
  match risk with
  | .all => true
  | .majorOnly => group = .major
  | .nonMajor => group = .minor || group = .patch || group = .none
  | .prereleaseOnly => group = .prerelease
  | .unknownOnly => group = .unknown
/-- Version spec of a candidate: declared range plus resolved version. -/
structure NextUpdatesVersionSpec where
  range : String
  version : Option String
deriving Repr, DecidableEq
/-- Dependency type of a candidate. -/
inductive DependencyType where
  | dependencies
  | devDependencies
  | unknown
deriving Repr, DecidableEq
/-- dependencyTypeOrder (src/core/report/types.ts). -/
def dependencyTypeOrder : List DependencyType :=
  [.dependencies, .devDependencies, .unknown]
/-- NextUpdatesCandidateBase. -/
structure NextUpdatesCandidateBase where
  packageFile : String
  dependencyType : DependencyType
  packageName : String
  current : NextUpdatesVersionSpec
  target : NextUpdatesVersionSpec
deriving Repr, DecidableEq
/-- applyRiskFilter: the all case returns a fresh copy of the input array
(the same list), every other case filters by the classified risk group. -/
def applyRiskFilter (candidates : List NextUpdatesCandidateBase)
    (risk : NextUpdatesRisk) : List NextUpdatesCandidateBase :=
  if risk = .all then candidates
  else
    candidates.filter fun candidate =>
      matchesRiskFilter risk
        (classifyRiskGroup candidate.current.version candidate.target.version)
/-! # A stable comparator sort

JavaScript Array.prototype.sort is a stable sort that, for a consistent
comparator, returns a sorted permutation of its input.  We model it with a
structural insertion sort over a boolean comparator-derived order, which
is stable and kernel-evaluable. -/

/-- Insert an element into a sorted list, keeping it after smaller-or-kept
elements. -/
def insertLe {α : Type} (le : α → α → Bool) (a : α) : List α → List α
  | [] => [a]
  | b :: l => if le a b then a :: b :: l else b :: insertLe le a l
/-- Stable insertion sort over a boolean order. -/
def sortLe {α : Type} (le : α → α → Bool) : List α → List α
  | [] => []
  | a :: l => insertLe le a (sortLe le l)
/-! # Evidence collector: version window (src/cli/evidence/index.ts) -/

/-- The four delta buckets of a version window. -/
structure VersionDelta where
  major : Nat
  minor : Nat
  patch : Nat
  prerelease : Nat
deriving Repr, DecidableEq
/-- NextUpdatesVersionWindow. -/
structure NextUpdatesVersionWindow where
  delta : VersionDelta
deriving Repr, DecidableEq
/-- NpmRegistryRepository: a string or an object with optional type and
url fields; any non-string url behaves as missing. -/
inductive NpmRegistryRepository where
  | str (s : String)
  | obj (typ url : Option String)
deriving Repr, DecidableEq
/-- NpmRegistryPackage: the pipeline reads only the key list of the
versions record (when present as an object) and the repository field, so
the versions field is embedded as its key list. -/
structure NpmRegistryPackage where
  versions : Option (List String)
  repository : Option NpmRegistryRepository
deriving Repr, DecidableEq
/-- createEmptyVersionWindow. -/
def createEmptyVersionWindow : NextUpdatesVersionWindow :=
  ⟨⟨0, 0, 0, 0⟩⟩
/-- semverMajor: major component of a parseable version string, else 0. -/
def semverMajor (value : String) : Nat :=
  ((parseSemVer value).map SemVer.major).getD 0
/-- semverMinor. -/
def semverMinor (value : String) : Nat :=
  ((parseSemVer value).map SemVer.minor).getD 0
/-- semverPatch. -/
def semverPatch (value : String) : Nat :=
  ((parseSemVer value).map SemVer.patch).getD 0
/-- semverPrerelease: whether the string parses with a nonempty prerelease
list. -/
def semverPrerelease (value : String) : Bool :=
  match parseSemVer value with
  | some v => !v.prerelease.isEmpty
  | none => false
/-- Loop body of countVersionDelta, with the precomputed base components. -/
def countVersionDeltaGo (base : String) (baseMajor baseMinor basePatch : Nat) :
    List String → VersionDelta
  | [] => ⟨0, 0, 0, 0⟩
  | version :: rest =>
    let delta := countVersionDeltaGo base baseMajor baseMinor basePatch rest
    if version = base then delta
    else if semverPrerelease version then
      { delta with prerelease := delta.prerelease + 1 }
    else if semverMajor version > baseMajor then
      { delta with major := delta.major + 1 }
    else if semverMajor version = baseMajor ∧ semverMinor version > baseMinor then
      { delta with minor := delta.minor + 1 }
    else if semverMajor version = baseMajor ∧ semverMinor version = baseMinor ∧
        semverPatch version > basePatch then
      { delta with patch := delta.patch + 1 }
    else delta
/-- countVersionDelta: bucket every version of the window other than the
base string by the first component exceeding the base, prerelease versions
always counting toward the prerelease bucket. -/
def countVersionDelta (versions : List String) (base : String) : VersionDelta :=
  countVersionDeltaGo base (semverMajor base) (semverMinor base)
    (semverPatch base) versions
/-- getRegistryVersionKeys: the valid version keys of the registry
document, sorted ascending by semver order. -/
def getRegistryVersionKeys (registry : NpmRegistryPackage) : List String :=
  match registry.versions with
  | none => []
  | some keys =>
    let versions := keys.filter fun version => (semverValid version).isSome
    sortLe (fun a b => semverCompareStr a b ≤ 0) versions
/-- buildVersionWindow: empty unless both endpoints are valid and installed
is not above target; otherwise count the registry versions lying in the
inclusive window. -/
def buildVersionWindow (registry : NpmRegistryPackage)
    (installedVersion targetVersion : String) : NextUpdatesVersionWindow :=
  match semverValid installedVersion, semverValid targetVersion with
  | some vfrom, some vto =>
    if semverCompareStr vfrom vto > 0 then createEmptyVersionWindow
    else
      let versionKeys := getRegistryVersionKeys registry
      let window := versionKeys.filter fun version =>
        semverGteStr version vfrom && semverLteStr version vto
      ⟨countVersionDelta window vfrom⟩
  | _, _ => createEmptyVersionWindow
/-! # JavaScript values

The TypeScript sources operate on untyped (unknown) data with runtime
type guards; we embed such data as a JSON-like value type.  typeof gives
object for objects, arrays and null; the isRecord guards of the sources
exclude null explicitly. -/

-- Equality on coercion results is decidable.
deriving instance DecidableEq for Except
/-- Untyped JavaScript value. -/
inductive JVal where
  | null
  | bool (b : Bool)
  | num (n : Int)
  | str (s : String)
  | arr (elems : List JVal)
  | obj (fields : List (String × JVal))
/-- isRecord: typeof value is object and value is not null. -/
def isRecordJ : JVal → Bool
  | .obj _ => true
  | .arr _ => true
  | _ => false
/-- Object.entries: own enumerable entries in insertion order; for an
array the index keys in order. -/
def jsEntries : JVal → List (String × JVal)
  | .obj fields => fields
  | .arr elems => elems.enum.map fun p => (Nat.repr p.1, p.2)
  | _ => []
/-- Property access on a value: undefined except on objects and array
index keys. -/
def jsGet : JVal → String → Option JVal
  | .obj fields, key => (fields.find? fun f => f.1 = key).map (·.2)
  | .arr elems, key =>
    ((elems.enum.map fun p => (Nat.repr p.1, p.2)).find? fun f => f.1 = key).map
      (·.2)
  | _, _ => none
/-- String.prototype.endsWith. -/
def strEndsWith (s suffix : String) : Bool :=
  suffix.data.isSuffixOf s.data
/-- String.prototype.indexOf for a single character: none when absent. -/
def strIndexOfChar (s : String) (c : Char) : Option Nat :=
  s.data.findIdx? (· = c)
/-- String.prototype.lastIndexOf for a single character: -1 when absent. -/
def strLastIndexOfChar (s : String) (c : Char) : Int :=
  match s.data.reverse.findIdx? (· = c) with
  | none => -1
  | some j => Int.ofNat (s.data.length - 1 - j)
/-! # Suggestion-mapping coercion
(src/cli/tasks/next-updates/ncu/normalize.ts) -/

/-- The coerced suggestion mapping: flat (package name to range) or
workspace-nested (package file to flat mapping).  JavaScript objects are
embedded as entry lists in insertion order. -/
inductive NcuUpgraded where
  | flat (entries : List (String × String))
  | workspaces (entries : List (String × List (String × String)))
deriving Repr, DecidableEq
/-- coerceFlat: every value must be a string, else throw. -/
def coerceFlat : List (String × JVal) → Except String (List (String × String))
  | [] => .ok []
  | (packageName, suggestedRange) :: rest =>
    match suggestedRange with
    | .str s =>
      match coerceFlat rest with
      | .ok flat => .ok ((packageName, s) :: flat)
      | .error e => .error e
    | _ => .error "Invalid upgraded dependencies found"
/-- coerceWorkspaces: every value must be a record of strings, else
throw. -/
def coerceWorkspaces :
    List (String × JVal) → Except String (List (String × List (String × String)))
  | [] => .ok []
  | (packageFile, upgrades) :: rest =>
    if isRecordJ upgrades then
      match coerceFlat (jsEntries upgrades) with
      | .error e => .error e
      | .ok flat =>
        match coerceWorkspaces rest with
        | .error e => .error e
        | .ok ws => .ok ((packageFile, flat) :: ws)
    else .error "Invalid upgraded dependencies found"
/-- looksLikeWorkspaces: some top-level key ends with package.json. -/
def looksLikeWorkspaces (entries : List (String × JVal)) : Bool :=
  entries.any fun e => strEndsWith e.1 "package.json"
/-- coerceNcuUpgraded: undefined passes through; a non-record throws; an
empty record is the empty flat mapping; otherwise the nested shape is
chosen by looksLikeWorkspaces, and the matching coercion runs. -/
def coerceNcuUpgraded (result : Option JVal) :
    Except String (Option NcuUpgraded) :=
  match result with
  | none => .ok none
  | some v =>
    if !isRecordJ v then .error "Invalid upgraded dependencies found"
    else
      let entries := jsEntries v
      if entries.isEmpty then .ok (some (.flat []))
      else if looksLikeWorkspaces entries then
        match coerceWorkspaces entries with
        | .error e => .error e
        | .ok ws => .ok (some (.workspaces ws))
      else
        match coerceFlat entries with
        | .error e => .error e
        | .ok flat => .ok (some (.flat flat))
/-- isWorkspacesResult (used downstream of the coercion): some top-level
value is itself a non-null object. -/
def isWorkspacesResultJ (result : JVal) : Bool :=
  if !isRecordJ result then false
  else (jsEntries result).any fun e => isRecordJ e.2
/-- A string value. -/
def isStrJ : JVal → Bool
  | .str _ => true
  | _ => false
/-- A record all of whose values are strings. -/
def isObjOfStrings (v : JVal) : Bool :=
  isRecordJ v && (jsEntries v).all fun e => isStrJ e.2
/-! # Bun version extraction (src/core/lockfiles/bun.ts and
src/cli/tasks/next-updates/lockfiles/utils.ts) -/

/-- normalizeInstalledVersion: truncate at the first opening parenthesis
and trim; otherwise return the value unchanged. -/
def normalizeInstalledVersion (value : String) : String :=
  match strIndexOfChar value '(' with
  | none => value
  | some parenIndex => String.mk (trimChars (value.data.take parenIndex))
/-- extractBunVersion: the substring after the last at sign of a string
entry, normalized; null for non-strings, a leading or missing at sign, or
a trailing at sign. -/
def extractBunVersion (entry : JVal) : Option String :=
  match entry with
  | .str e =>
    let atIndex := strLastIndexOfChar e '@'
    if atIndex ≤ 0 ∨ atIndex = Int.ofNat e.data.length - 1 then none
    else
      some (normalizeInstalledVersion (String.mk (e.data.drop (atIndex.toNat + 1))))
  | _ => none

/-! # Lockfile version lookups

Each builder reads a lockfile and returns a lookup function from
(packageFile, packageName, currentRange) to an installed version.  The
file read and the external JSON/YAML parsers are oracle parameters: a
none read result models a thrown read error, a none parse result models a
parser exception.  Every builder is total — the try/catch boundaries of
the sources are modeled by the total match on the oracle outcomes. -/

/-- JavaScript truthiness of an embedded value. -/
def jsTruthyJ : JVal → Bool
  | .null => false
  | .bool b => b
  | .num n => n ≠ 0
  | .str s => s ≠ ""
  | .arr _ => true
  | .obj _ => true

/-- String.prototype.startsWith. -/
def strStartsWith (s p : String) : Bool :=
  p.data.isPrefixOf s.data

/-- Substring test at every suffix position. -/
def listContainsSub (pat : List Char) : List Char → Bool
  | [] => pat.isEmpty
  | l@(_ :: tl) => if pat.isPrefixOf l then true else listContainsSub pat tl

/-- String.prototype.includes. -/
def strIncludes (s pat : String) : Bool :=
  listContainsSub pat.data s.data

/-- A field of a record that is itself a record, else none (the pattern
isRecord(x.key) of the sources). -/
def recordField (parsed : JVal) (key : String) : Option JVal :=
  match jsGet parsed key with
  | some v => if isRecordJ v then some v else none
  | none => none

/-- The entry-and-version-string pattern of the npm lookup: the entry is
truthy and its version field is a string. -/
def lockEntryVersion (entry : Option JVal) : Option String :=
  match entry with
  | some e =>
    if jsTruthyJ e then
      match jsGet e "version" with
      | some (.str version) => some (normalizeInstalledVersion version)
      | _ => none
    else none
  | none => none

/-- path.posix.join of node_modules and a package name.  Normalization of
exotic names (dot segments, repeated slashes) is not modeled. -/
def posixJoinNodeModules (packageName : String) : String :=
  if packageName = "" then "node_modules" else "node_modules/" ++ packageName

/-- createNpmInstalledVersionLookup
(src/cli/tasks/next-updates/lockfiles/utils.ts): package-lock.json lookup
via packages with a node_modules key, falling back to the legacy
dependencies map. -/
def createNpmInstalledVersionLookup (jsonParse : String → Option JVal)
    (readResult : Option String) :
    String → String → String → Option String :=
  match readResult with
  | none => fun _ _ _ => none
  | some raw =>
    match jsonParse raw with
    | none => fun _ _ _ => none
    | some parsed =>
      if !isRecordJ parsed then fun _ _ _ => none
      else
        let packages := recordField parsed "packages"
        let dependencies := recordField parsed "dependencies"
        fun _packageFile packageName _currentRange =>
          let fromPackages :=
            match packages with
            | some p => lockEntryVersion (jsGet p (posixJoinNodeModules packageName))
            | none => none
          match fromPackages with
          | some v => some v
          | none =>
            match dependencies with
            | some d => lockEntryVersion (jsGet d packageName)
            | none => none

/-- Scan of Node path.posix.dirname from the end of the path (indices
above zero): the index of the slash before the last component, skipping
trailing slashes. -/
def posixDirnameGo : List Char → Bool → Option Nat
  | [], _ => none
  | c :: tl, matched =>
    if c = '/' then
      if matched then posixDirnameGo tl true
      else some (tl.length + 1)
    else posixDirnameGo tl false

/-- path.posix.dirname. -/
def posixDirname (p : String) : String :=
  match p.data with
  | [] => "."
  | c0 :: rest =>
    let hasRoot := c0 = '/'
    match posixDirnameGo rest.reverse true with
    | none => if hasRoot then "/" else "."
    | some endIdx =>
      if hasRoot ∧ endIdx = 1 then "//"
      else String.mk (p.data.take endIdx)

/-- packageFileToImporterKey: the dot for the root manifest, else the
POSIX dirname of the manifest path (path.sep is the slash on POSIX, so
the split-join normalization is the identity). -/
def packageFileToImporterKey (packageFile : String) : String :=
  if packageFile = "package.json" then "."
  else
    let dir := posixDirname packageFile
    if dir = "." then "." else dir

/-- getPnpmVersionEntry: a bare version string, or an object with a
string version field, normalized. -/
def getPnpmVersionEntry (entry : Option JVal) : Option String :=
  match entry with
  | some (.str s) => some (normalizeInstalledVersion s)
  | some e =>
    if jsTruthyJ e then
      match jsGet e "version" with
      | some (.str v) => some (normalizeInstalledVersion v)
      | _ => none
    else none
  | none => none

/-- One dependency group lookup of a pnpm importer (the optional chaining
importer.group?.[packageName] of the source). -/
def pnpmDepLookup (importer : JVal) (group packageName : String) :
    Option String :=
  match jsGet importer group with
  | some deps => getPnpmVersionEntry (jsGet deps packageName)
  | none => none

/-- getPnpmImporterVersion: dependencies, devDependencies,
optionalDependencies, then peerDependencies. -/
def getPnpmImporterVersion (importer : JVal) (packageName : String) :
    Option String :=
  ((pnpmDepLookup importer "dependencies" packageName).orElse fun _ =>
    (pnpmDepLookup importer "devDependencies" packageName).orElse fun _ =>
      (pnpmDepLookup importer "optionalDependencies" packageName).orElse fun _ =>
        pnpmDepLookup importer "peerDependencies" packageName)

/-- createPnpmInstalledVersionLookup: resolve the manifest to an importer
key and look the package up in the importer dependency groups. -/
def createPnpmInstalledVersionLookup (yamlParse : String → Option JVal)
    (readResult : Option String) :
    String → String → String → Option String :=
  match readResult with
  | none => fun _ _ _ => none
  | some raw =>
    match yamlParse raw with
    | none => fun _ _ _ => none
    | some parsed =>
      if !isRecordJ parsed then fun _ _ _ => none
      else
        match recordField parsed "importers" with
        | none => fun _ _ _ => none
        | some importers =>
          fun packageFile packageName _currentRange =>
            let importerKey := packageFileToImporterKey packageFile
            match jsGet importers importerKey with
            | some importer =>
              if jsTruthyJ importer then
                getPnpmImporterVersion importer packageName
              else none
            | none => none

/-- Strip a comma followed by whitespace and a closing brace or bracket
(the global trailing-comma regex of the bun parser); scanning resumes
after a replaced bracket. -/
def stripTrailingCommas (l : List Char) : List Char :=
  match l with
  | [] => []
  | c :: rest =>
    if c = ',' then
      match h : rest.dropWhile (·.isWhitespace) with
      | '}' :: tl => '}' :: stripTrailingCommas tl
      | ']' :: tl => ']' :: stripTrailingCommas tl
      | _ => ',' :: stripTrailingCommas rest
    else c :: stripTrailingCommas rest
termination_by l.length
decreasing_by
  · have hsub : (List.dropWhile (fun x => x.isWhitespace) rest).length ≤
        rest.length := List.Sublist.length_le (List.dropWhile_sublist _)
    rw [h] at hsub
    simp only [List.length_cons] at hsub ⊢
    omega
  · have hsub : (List.dropWhile (fun x => x.isWhitespace) rest).length ≤
        rest.length := List.Sublist.length_le (List.dropWhile_sublist _)
    rw [h] at hsub
    simp only [List.length_cons] at hsub ⊢
    omega
  · simp only [List.length_cons]
    omega
  · simp only [List.length_cons]
    omega

/-- parseBunLockfile: strip trailing commas and parse as JSON; null
unless the result is a record. -/
def parseBunLockfile (jsonParse : String → Option JVal) (raw : String) :
    Option JVal :=
  let cleaned := String.mk (stripTrailingCommas raw.data)
  match jsonParse cleaned with
  | none => none
  | some parsed => if isRecordJ parsed then some parsed else none

/-- createBunInstalledVersionLookup (src/core/lockfiles/bun.ts): the
packages record maps a package name to an array whose first element
carries the name-at-version string. -/
def createBunInstalledVersionLookup (jsonParse : String → Option JVal)
    (readResult : Option String) :
    String → String → String → Option String :=
  match readResult with
  | none => fun _ _ _ => none
  | some raw =>
    match parseBunLockfile jsonParse raw with
    | none => fun _ _ _ => none
    | some parsed =>
      match recordField parsed "packages" with
      | none => fun _ _ _ => none
      | some packages =>
        fun _packageFile packageName _currentRange =>
          match jsGet packages packageName with
          | some (.arr (e0 :: _)) => extractBunVersion e0
          | _ => none

/-- The yarn installed-version index: package name to (descriptor,
version) entries, in insertion order (the source uses a Map of arrays). -/
abbrev YarnInstalledIndex : Type :=
  List (String × List (String × String))

/-- getYarnDescriptorPackageName: the text before the last at sign; none
when the at sign is missing or leading. -/
def getYarnDescriptorPackageName (descriptor : String) : Option String :=
  let atIndex := strLastIndexOfChar descriptor '@'
  if atIndex ≤ 0 then none
  else some (String.mk (descriptor.data.take atIndex.toNat))

/-- addYarnDescriptorEntry: push onto the entry list of the descriptor
package name, creating the list on first sight. -/
def addYarnDescriptorEntry (index : YarnInstalledIndex)
    (descriptor version : String) : YarnInstalledIndex :=
  match getYarnDescriptorPackageName descriptor with
  | none => index
  | some packageName =>
    if (index.find? fun e => e.1 = packageName).isSome then
      index.map fun e =>
        if e.1 = packageName then (e.1, e.2 ++ [(descriptor, version)]) else e
    else index ++ [(packageName, [(descriptor, version)])]

/-- getYarnEntryVersion: the string version field of a record entry,
normalized. -/
def getYarnEntryVersion (entry : JVal) : Option String :=
  if isRecordJ entry then
    match jsGet entry "version" with
    | some (.str version) => some (normalizeInstalledVersion version)
    | _ => none
  else none

/-- stripYarnQuotes: drop a matching pair of surrounding quotes. -/
def stripYarnQuotes (value : String) : String :=
  if (strStartsWith value "\"" && strEndsWith value "\"") ||
      (strStartsWith value "'" && strEndsWith value "'") then
    String.mk (value.data.drop 1).dropLast
  else value

/-- Character scan of splitYarnDescriptorList: split on commas outside
quotes, keeping quoted descriptors intact; the quote state carries the
opening quote character. -/
def splitYarnDescGo (acc : List String) (current : List Char)
    (inQuote : Bool) (quoteChar : Option Char) :
    List Char → List String
  | [] =>
    let trimmed := trimChars current
    if trimmed ≠ [] then acc ++ [stripYarnQuotes (String.mk trimmed)] else acc
  | ch :: rest =>
    if (ch = '"' ∨ ch = '\'') ∧ (quoteChar = none ∨ quoteChar = some ch) then
      if inQuote then
        splitYarnDescGo acc (current ++ [ch]) false none rest
      else
        splitYarnDescGo acc (current ++ [ch]) true (some ch) rest
    else if ch = ',' ∧ !inQuote then
      let trimmed := trimChars current
      if trimmed ≠ [] then
        splitYarnDescGo (acc ++ [stripYarnQuotes (String.mk trimmed)]) []
          inQuote quoteChar rest
      else
        splitYarnDescGo acc [] inQuote quoteChar rest
    else
      splitYarnDescGo acc (current ++ [ch]) inQuote quoteChar rest

/-- splitYarnDescriptorList. -/
def splitYarnDescriptorList (content : String) : List String :=
  splitYarnDescGo [] [] false none content.data

/-- splitYarnKeyLine: a trimmed line ending in a colon introduces a
comma-separated descriptor list. -/
def splitYarnKeyLine (line : String) : List String :=
  let trimmed := String.mk (trimChars line.data)
  if !strEndsWith trimmed ":" then []
  else
    let content := String.mk (trimChars trimmed.data.dropLast)
    if content = "" then [] else splitYarnDescriptorList content

/-- Index (from the end) of the last quote character of a list. -/
def lastQuoteIdx (l : List Char) : Option Nat :=
  match l.reverse.findIdx? fun c => c = '"' ∨ c = '\'' with
  | none => none
  | some jr => some (l.length - 1 - jr)

/-- The classic version regular expression: the literal version keyword,
whitespace, a quote, then a greedy nonempty capture ending at the last
quote character of the line. -/
def matchYarnClassicVersion (trimmed : String) : Option String :=
  let cs := trimmed.data
  if !("version".data.isPrefixOf cs) then none
  else
    let afterKw := cs.drop 7
    let (ws, tail) := afterKw.span (·.isWhitespace)
    if ws = [] then none
    else
      match tail with
      | q :: rest =>
        if q = '"' ∨ q = '\'' then
          match lastQuoteIdx rest with
          | some j => if j ≥ 1 then some (String.mk (rest.take j)) else none
          | none => none
        else none
      | [] => none

/-- Split on a newline optionally preceded by a carriage return. -/
def splitLinesGo (cur : List Char) : List Char → List String
  | [] => [String.mk cur.reverse]
  | '\r' :: '\n' :: rest => String.mk cur.reverse :: splitLinesGo [] rest
  | '\n' :: rest => String.mk cur.reverse :: splitLinesGo [] rest
  | c :: rest => splitLinesGo (c :: cur) rest

/-- String split on the line-break regular expression. -/
def splitLines (s : String) : List String :=
  splitLinesGo [] s.data

/-- Line loop of buildYarnDescriptorIndexFromClassic: flush-left lines
set the current descriptors, indented version lines record an entry for
each current descriptor. -/
def buildYarnClassicGo (index : YarnInstalledIndex)
    (currentDescriptors : List String) : List String → YarnInstalledIndex
  | [] => index
  | line :: rest =>
    let trimmed := String.mk (trimChars line.data)
    if trimmed = "" ∨ strStartsWith trimmed "#" then
      buildYarnClassicGo index currentDescriptors rest
    else if !strStartsWith line " " then
      buildYarnClassicGo index (splitYarnKeyLine line) rest
    else if currentDescriptors = [] then
      buildYarnClassicGo index currentDescriptors rest
    else
      match matchYarnClassicVersion trimmed with
      | none => buildYarnClassicGo index currentDescriptors rest
      | some capture =>
        let version := normalizeInstalledVersion capture
        let index2 := currentDescriptors.foldl
          (fun idx descriptor => addYarnDescriptorEntry idx descriptor version)
          index
        buildYarnClassicGo index2 currentDescriptors rest

/-- buildYarnDescriptorIndexFromClassic. -/
def buildYarnDescriptorIndexFromClassic (raw : String) : YarnInstalledIndex :=
  buildYarnClassicGo [] [] (splitLines raw)

/-- buildYarnDescriptorIndexFromBerry: every top-level entry except the
metadata marker contributes its version under each of its descriptors. -/
def buildYarnDescriptorIndexFromBerry (lockfile : JVal) : YarnInstalledIndex :=
  (jsEntries lockfile).foldl
    (fun index e =>
      if e.1 = "__metadata" then index
      else
        match getYarnEntryVersion e.2 with
        | none => index
        | some version =>
          (splitYarnDescriptorList e.1).foldl
            (fun idx descriptor => addYarnDescriptorEntry idx descriptor version)
            index)
    []

/-- matchesYarnDescriptor: an exact range match after the package-name
prefix, or a match after a protocol-prefixed colon. -/
def matchesYarnDescriptor (descriptor packageName currentRange : String) :
    Bool :=
  if currentRange = "" then false
  else if !strStartsWith descriptor (packageName ++ "@") then false
  else
    let range := String.mk (descriptor.data.drop (packageName ++ "@").data.length)
    range = currentRange || strEndsWith range (":" ++ currentRange)

/-- createYarnInstalledVersionLookupFromIndex: an empty current range
never matches; otherwise the first matching descriptor entry of the
package wins. -/
def createYarnInstalledVersionLookupFromIndex (index : YarnInstalledIndex) :
    String → String → String → Option String :=
  fun _packageFile packageName currentRange =>
    if currentRange = "" then none
    else
      match index.find? fun e => e.1 = packageName with
      | none => none
      | some entry =>
        (entry.2.find? fun e =>
          matchesYarnDescriptor e.1 packageName currentRange).map (·.2)

/-- createYarnInstalledVersionLookup
(src/cli/tasks/next-updates/lockfiles/yarn.ts): Berry lockfiles (detected
by the metadata marker) are parsed as YAML; on a parser exception or a
non-record document the builder falls back to the classic line-oriented
parser, which never throws.  Only a read failure yields the always-null
lookup. -/
def createYarnInstalledVersionLookup (yamlParse : String → Option JVal)
    (readResult : Option String) :
    String → String → String → Option String :=
  match readResult with
  | none => fun _ _ _ => none
  | some raw =>
    let index : Option YarnInstalledIndex :=
      if strIncludes raw "__metadata:" then
        match yamlParse raw with
        | some parsed =>
          if isRecordJ parsed then
            some (buildYarnDescriptorIndexFromBerry parsed)
          else none
        | none => none
      else none
    let index2 :=
      match index with
      | none => buildYarnDescriptorIndexFromClassic raw
      | some idx => idx
    createYarnInstalledVersionLookupFromIndex index2

/-! # Evidence links (src/cli/evidence/index.ts)

Network effects are oracles: the registry fetch outcome per package name
and the URL reachability probe outcome.  Both caches memoize the first
request per key, so the oracles are well defined across a batch. -/

/-- The four evidence link fields. -/
structure NextUpdatesEvidenceLinks where
  compare : Option String
  npmDiffLink : Option String
  releases : Option String
  changelog : Option String
deriving Repr, DecidableEq

/-- NextUpdatesEvidence. -/
structure NextUpdatesEvidence where
  links : NextUpdatesEvidenceLinks
deriving Repr, DecidableEq

/-- CandidateEvidenceInput. -/
structure CandidateEvidenceInput where
  packageName : String
  installedVersion : Option String
  targetVersion : Option String
deriving Repr, DecidableEq

/-- CandidateEvidenceResult. -/
structure CandidateEvidenceResult where
  versionWindow : NextUpdatesVersionWindow
  evidence : Option NextUpdatesEvidence
deriving Repr, DecidableEq

/-- Replace a literal string prefix. -/
def stripPrefixRepl (s p repl : String) : String :=
  if strStartsWith s p then repl ++ String.mk (s.data.drop p.data.length)
  else s

/-- Drop everything from the first occurrence of a character (the
fragment-stripping regular expression). -/
def dropFromChar (s : String) (c : Char) : String :=
  String.mk (s.data.takeWhile (· ≠ c))

/-- Drop a literal suffix when present. -/
def dropSuffixIf (s suf : String) : String :=
  if strEndsWith s suf then
    String.mk (s.data.take (s.data.length - suf.data.length))
  else s

/-- Match of the owner/repo capture right after a github.com/ token: a
nonempty run without slashes, a slash, then a nonempty greedy run without
slashes or hashes. -/
def matchGithubRepoAt (l : List Char) : Option String :=
  let (part1, rest1) := l.span (· ≠ '/')
  if part1 = [] then none
  else
    match rest1 with
    | '/' :: rest2 =>
      let part2 := rest2.takeWhile fun c => c ≠ '/' ∧ c ≠ '#'
      if part2 = [] then none
      else some (String.mk (part1 ++ '/' :: part2))
    | _ => none

/-- Leftmost match of the github repository regular expression. -/
def searchGithubRepo : List Char → Option String
  | [] => none
  | l@(_ :: rest) =>
    if "github.com/".data.isPrefixOf l then
      match matchGithubRepoAt (l.drop 11) with
      | some cap => some cap
      | none => searchGithubRepo rest
    else searchGithubRepo rest

/-- normalizeRepositoryUrl: string or object url field; empty strings are
falsy; github: shorthand and git-style schemes are rewritten; the
fragment is dropped; only GitHub owner/repo paths are accepted, with a
trailing .git removed. -/
def normalizeRepositoryUrl (repository : Option NpmRegistryRepository) :
    Option String :=
  let raw : Option String :=
    match repository with
    | some (.str s) => some s
    | some (.obj _ (some url)) => some url
    | _ => none
  match raw with
  | none => none
  | some rawStr =>
    if rawStr = "" then none
    else
      let cleaned0 := String.mk (trimChars rawStr.data)
      let cleaned1 :=
        if strStartsWith cleaned0 "github:" then
          "https://github.com/" ++ String.mk (cleaned0.data.drop 7)
        else cleaned0
      let cleaned2 := stripPrefixRepl cleaned1 "git+" ""
      let cleaned3 := stripPrefixRepl cleaned2 "git://" "https://"
      let cleaned4 :=
        stripPrefixRepl cleaned3 "ssh://git@github.com/" "https://github.com/"
      let cleaned5 :=
        stripPrefixRepl cleaned4 "git@github.com:" "https://github.com/"
      let cleaned6 := dropFromChar cleaned5 '#'
      match searchGithubRepo cleaned6.data with
      | none => none
      | some capture => some ("https://github.com/" ++ dropSuffixIf capture ".git")

/-- normalizeTagVersion: trimmed version, empty is missing, a leading v
is dropped when the remainder is a valid semantic version. -/
def normalizeTagVersion (version : String) : Option String :=
  let normalized := String.mk (trimChars version.data)
  if normalized = "" then none
  else if strStartsWith normalized "v" then
    let withoutV := String.mk (normalized.data.drop 1)
    if (semverValid withoutV).isSome then some withoutV else some normalized
  else some normalized

/-- getUnscopedPackageName. -/
def getUnscopedPackageName (packageName : String) : String :=
  if !strStartsWith packageName "@" then packageName
  else
    match strIndexOfChar packageName '/' with
    | none => packageName
    | some slashIndex => String.mk (packageName.data.drop (slashIndex + 1))

/-- A compare tag pair (the from and to fields of the source). -/
structure CompareTagPair where
  fromTag : String
  toTag : String
deriving Repr, DecidableEq

/-- buildCompareTagPairs: v-prefixed tags, bare tags, name-at-version
tags, and unscoped name-at-version tags for scoped packages. -/
def buildCompareTagPairs (packageName fromVersion toVersion : String) :
    List CompareTagPair :=
  let unscoped := getUnscopedPackageName packageName
  let pairs : List CompareTagPair :=
    [⟨"v" ++ fromVersion, "v" ++ toVersion⟩,
     ⟨fromVersion, toVersion⟩,
     ⟨packageName ++ "@" ++ fromVersion, packageName ++ "@" ++ toVersion⟩]
  if unscoped ≠ "" ∧ unscoped ≠ packageName then
    pairs ++ [⟨unscoped ++ "@" ++ fromVersion, unscoped ++ "@" ++ toVersion⟩]
  else pairs

/-- Uppercase hexadecimal digit. -/
def hexDigit (n : Nat) : Char :=
  "0123456789ABCDEF".data.getD n '0'

/-- UTF-8 bytes of a character. -/
def utf8Bytes (c : Char) : List Nat :=
  let n := c.toNat
  if n < 128 then [n]
  else if n < 2048 then [192 + n / 64, 128 + n % 64]
  else if n < 65536 then
    [224 + n / 4096, 128 + n / 64 % 64, 128 + n % 64]
  else
    [240 + n / 262144, 128 + n / 4096 % 64, 128 + n / 64 % 64, 128 + n % 64]

/-- Characters encodeURIComponent leaves unescaped. -/
def isUnreservedUriChar (c : Char) : Bool :=
  c.isAlpha || c.isDigit ||
    (c = '-' || c = '_' || c = '.' || c = '!' || c = '~' || c = '*' ||
     c = '\'' || c = '(' || c = ')')

/-- Percent-encoding of one byte. -/
def percentByte (b : Nat) : String :=
  "%" ++ String.mk [hexDigit (b / 16), hexDigit (b % 16)]

/-- encodeURIComponent. -/
def encodeURIComponent (s : String) : String :=
  String.join (s.data.map fun c =>
    if isUnreservedUriChar c then String.singleton c
    else String.join ((utf8Bytes c).map percentByte))

/-- encodeGitTag. -/
def encodeGitTag (tag : String) : String :=
  encodeURIComponent tag

/-- buildCompareUrl. -/
def buildCompareUrl (repoUrl : String) (pair : CompareTagPair) : String :=
  repoUrl ++ "/compare/" ++ encodeGitTag pair.fromTag ++ "..." ++
    encodeGitTag pair.toTag

/-- Probe loop of buildCompareEvidence: the first reachable compare URL
wins. -/
def buildCompareEvidenceGo (reachable : String → Bool) (repositoryUrl : String) :
    List CompareTagPair → Option String
  | [] => none
  | pair :: rest =>
    let compareUrl := buildCompareUrl repositoryUrl pair
    if reachable compareUrl then some compareUrl
    else buildCompareEvidenceGo reachable repositoryUrl rest

/-- buildCompareEvidence. -/
def buildCompareEvidence (registry : NpmRegistryPackage)
    (packageName installedVersion targetVersion : String)
    (reachable : String → Bool) : Option String :=
  match normalizeRepositoryUrl registry.repository with
  | none => none
  | some repositoryUrl =>
    match normalizeTagVersion installedVersion,
        normalizeTagVersion targetVersion with
    | some fromVersion, some toVersion =>
      buildCompareEvidenceGo reachable repositoryUrl
        (buildCompareTagPairs packageName fromVersion toVersion)
    | _, _ => none

/-- buildNpmDiffLink: present whenever both versions are truthy (non-null
and nonempty). -/
def buildNpmDiffLink (packageName : String)
    (installedVersion targetVersion : Option String) : Option String :=
  match installedVersion, targetVersion with
  | some iv, some tv =>
    if iv = "" ∨ tv = "" then none
    else
      some ("npm diff --diff " ++ packageName ++ "@" ++ iv ++ " --diff " ++
        packageName ++ "@" ++ tv)
  | _, _ => none

/-- buildRawGithubBaseUrl. -/
def buildRawGithubBaseUrl (repositoryUrl : String) : Option String :=
  if !strStartsWith repositoryUrl "https://github.com/" then none
  else
    let repoPath := String.mk (repositoryUrl.data.drop 19)
    if String.mk (trimChars repoPath.data) = "" then none
    else some ("https://raw.githubusercontent.com/" ++ repoPath ++ "/HEAD/")

/-- resolveReleasesUrl: a reachable releases/latest page confirms the
releases link. -/
def resolveReleasesUrl (repositoryUrl : String) (reachable : String → Bool) :
    Option String :=
  let latestUrl := repositoryUrl ++ "/releases/latest"
  if reachable latestUrl then some (repositoryUrl ++ "/releases") else none

/-- The conventional changelog paths probed in order. -/
def changelogCandidates : List String :=
  ["CHANGELOG.md", "CHANGELOG", "CHANGES.md", "HISTORY.md", "NEWS.md",
   "RELEASES.md", "docs/CHANGELOG.md", "docs/CHANGES.md", "docs/HISTORY.md",
   "docs/NEWS.md", "changelog.md", "docs/changelog.md"]

/-- Probe loop of resolveChangelogUrl. -/
def resolveChangelogGo (reachable : String → Bool) (rawBase : String) :
    List String → Option String
  | [] => none
  | candidate :: rest =>
    let url := rawBase ++ candidate
    if reachable url then some url else resolveChangelogGo reachable rawBase rest

/-- resolveChangelogUrl. -/
def resolveChangelogUrl (repositoryUrl : String) (reachable : String → Bool) :
    Option String :=
  match buildRawGithubBaseUrl repositoryUrl with
  | none => none
  | some rawBase => resolveChangelogGo reachable rawBase changelogCandidates

/-- buildRepositoryEvidenceLinks: the releases and changelog links. -/
def buildRepositoryEvidenceLinks (registry : NpmRegistryPackage)
    (reachable : String → Bool) : Option String × Option String :=
  match normalizeRepositoryUrl registry.repository with
  | none => (none, none)
  | some repositoryUrl =>
    (resolveReleasesUrl repositoryUrl reachable,
     resolveChangelogUrl repositoryUrl reachable)

/-- The truthiness guard of buildEvidenceLinks: a link is kept when it is
present and nonempty. -/
def keepLink : Option String → Option String
  | some s => if s = "" then none else some s
  | none => none

/-- buildEvidenceLinks: keep the truthy links (dropping missing and empty
strings); null when no link is kept. -/
def buildEvidenceLinks (links : NextUpdatesEvidenceLinks) :
    Option NextUpdatesEvidence :=
  let cleaned : NextUpdatesEvidenceLinks :=
    ⟨keepLink links.compare, keepLink links.npmDiffLink,
     keepLink links.releases, keepLink links.changelog⟩
  if cleaned.compare = none ∧ cleaned.npmDiffLink = none ∧
      cleaned.releases = none ∧ cleaned.changelog = none then none
  else some ⟨cleaned⟩

/-- The repository links of one candidate (registry missing yields the
empty record). -/
def candidateRepositoryLinks (registry : Option NpmRegistryPackage)
    (reachable : String → Bool) : Option String × Option String :=
  match registry with
  | some reg => buildRepositoryEvidenceLinks reg reachable
  | none => (none, none)

/-- The version window of one candidate: built only when the registry and
both truthy versions are available. -/
def candidateVersionWindow (input : CandidateEvidenceInput)
    (registry : Option NpmRegistryPackage) : NextUpdatesVersionWindow :=
  match registry, input.installedVersion, input.targetVersion with
  | some reg, some iv, some tv =>
    if iv ≠ "" ∧ tv ≠ "" then buildVersionWindow reg iv tv
    else createEmptyVersionWindow
  | _, _, _ => createEmptyVersionWindow

/-- The compare link of one candidate: probed only when the registry and
both truthy versions are available. -/
def candidateCompareUrl (input : CandidateEvidenceInput)
    (registry : Option NpmRegistryPackage) (reachable : String → Bool) :
    Option String :=
  match registry, input.installedVersion, input.targetVersion with
  | some reg, some iv, some tv =>
    if iv ≠ "" ∧ tv ≠ "" then
      buildCompareEvidence reg input.packageName iv tv reachable
    else none
  | _, _, _ => none

/-- buildCandidateEvidence. -/
def buildCandidateEvidence (input : CandidateEvidenceInput)
    (registry : Option NpmRegistryPackage) (reachable : String → Bool) :
    CandidateEvidenceResult :=
  let npmDiffLink :=
    buildNpmDiffLink input.packageName input.installedVersion
      input.targetVersion
  let repositoryLinks := candidateRepositoryLinks registry reachable
  { versionWindow := candidateVersionWindow input registry,
    evidence := buildEvidenceLinks
      ⟨candidateCompareUrl input registry reachable, npmDiffLink,
       repositoryLinks.1, repositoryLinks.2⟩ }

/-- collectCandidateEvidence: all candidates resolve against the shared
oracles; Promise.all keeps the input order regardless of completion
order. -/
def collectCandidateEvidence (inputs : List CandidateEvidenceInput)
    (registryOf : String → Option NpmRegistryPackage)
    (reachable : String → Bool) : List CandidateEvidenceResult :=
  inputs.map fun input =>
    buildCandidateEvidence input (registryOf input.packageName) reachable

/-! # Evidence network caches (src/cli/evidence/index.ts)

getRegistryPackage and isUrlReachable check their cache and, on a miss,
create and store the fetch promise synchronously, before any other task
can run; the runtime never preempts between the check and the insert.  A
cache is modeled by the set of keys holding a promise, an access by the
check-then-insert step, and a batch by the sequence of keys accessed —
in input order for the registry accesses (Promise.all starts tasks in
order and the registry access is synchronous at task start), and in an
arbitrary interleaving for URL probes. -/

/-- One synchronous cache access: a hit reuses the stored promise, a miss
stores a new fetch promise and issues the network call. -/
def cacheAccess (cache : List String) (key : String) : List String × Bool :=
  if key ∈ cache then (cache, false) else (key :: cache, true)

/-- Run a sequence of cache accesses from a cache state, tracing which
accesses issued a network call. -/
def runCacheAccesses (cache : List String) : List String → List (String × Bool)
  | [] => []
  | key :: rest =>
    let step := cacheAccess cache key
    (key, step.2) :: runCacheAccesses step.1 rest

/-- The number of network calls issued for one key in a trace. -/
def issuedCount (trace : List (String × Bool)) (key : String) : Nat :=
  (trace.filter fun e => e.1 = key ∧ e.2).length

/-- The registry-metadata cache accesses of one collectCandidateEvidence
batch: one getRegistryPackage call per candidate, keyed by package
name. -/
def collectRegistryAccesses (inputs : List CandidateEvidenceInput) :
    List String :=
  inputs.map fun input => input.packageName

/-! # Candidate sorting and evidence reattachment
(src/cli/tasks/next-updates/candidates/build.ts and the report step of
src/cli/tasks/next-updates/lockfiles/utils.ts) -/

/-- The sortCandidates comparator: packageFile by localeCompare (the
oracle lc), then the dependencyTypeOrder index difference, then
packageName by localeCompare. -/
def cmpCandidate (lc : String → String → Int)
    (a b : NextUpdatesCandidateBase) : Int :=
  if a.packageFile ≠ b.packageFile then lc a.packageFile b.packageFile
  else if a.dependencyType ≠ b.dependencyType then
    (dependencyTypeOrder.indexOf a.dependencyType : Int) -
      (dependencyTypeOrder.indexOf b.dependencyType : Int)
  else lc a.packageName b.packageName

/-- sortCandidates: Array.prototype.sort with the comparator, modeled by
the stable insertion sort. -/
def sortCandidates (lc : String → String → Int)
    (candidates : List NextUpdatesCandidateBase) :
    List NextUpdatesCandidateBase :=
  sortLe (fun a b => cmpCandidate lc a b ≤ 0) candidates

/-- The evidence input of a candidate (the mapping inside
collectNextUpdatesReport). -/
def toEvidenceInput (candidate : NextUpdatesCandidateBase) :
    CandidateEvidenceInput :=
  ⟨candidate.packageName, candidate.current.version, candidate.target.version⟩

/-- A candidate enriched with its version window and evidence (the spread
of candidate and evidenceResults at the same index). -/
structure NextUpdatesCandidate where
  base : NextUpdatesCandidateBase
  versionWindow : NextUpdatesVersionWindow
  evidence : Option NextUpdatesEvidence
deriving Repr, DecidableEq

/-- attachEvidence: the source maps candidate i to evidenceResults[i];
with equal lengths this indexed map is the zip. -/
def attachEvidence (candidates : List NextUpdatesCandidateBase)
    (results : List CandidateEvidenceResult) : List NextUpdatesCandidate :=
  List.zipWith (fun c r => ⟨c, r.versionWindow, r.evidence⟩) candidates results

/-- The with-evidence step of collectNextUpdatesReport: evidence is
collected over the candidate projections and reattached by position. -/
def candidatesWithEvidence (candidates : List NextUpdatesCandidateBase)
    (registryOf : String → Option NpmRegistryPackage)
    (reachable : String → Bool) : List NextUpdatesCandidate :=
  attachEvidence candidates
    (collectCandidateEvidence (candidates.map toEvidenceInput) registryOf
      reachable)

/-- A concrete strict total order on strings standing in for the
localeCompare oracle in witnesses. -/
def lcCode (a b : String) : Int :=
  if a < b then -1 else if a = b then 0 else 1

/-- Closed form of compareSemVer used for case analysis. -/
theorem compareSemVer_eq (a b : SemVer) :
    compareSemVer a b =
      if a.major < b.major then -1
      else if b.major < a.major then 1
      else if a.minor < b.minor then -1
      else if b.minor < a.minor then 1
      else if a.patch < b.patch then -1
      else if b.patch < a.patch then 1
      else comparePre a.prerelease b.prerelease := by
  unfold compareSemVer cmpNat
  split_ifs <;> rfl

/-- Evaluation of classifyRiskGroup on two parseable version strings. -/
theorem classifyRiskGroup_some_some (cs ts : String) (c t : SemVer)
    (hcs : cs ≠ "") (hts : ts ≠ "")
    (hc : parseSemVer cs = some c) (ht : parseSemVer ts = some t) :
    classifyRiskGroup (some cs) (some ts) =
      (if compareSemVer c t = 0 then .none
       else if compareSemVer c t > 0 then .unknown
       else if t.prerelease.length > 0 then .prerelease
       else if t.major > c.major then .major
       else if t.minor > c.minor then .minor
       else if t.patch > c.patch then .patch
       else .none) := by
  simp only [classifyRiskGroup, hc, ht]
  rw [if_neg (by simp [hcs, hts])]

/-- Parseable version strings are nonempty. -/
theorem parseSemVer_ne_empty {s : String} {v : SemVer}
    (h : parseSemVer s = some v) : s ≠ "" := by
  rintro rfl
  have : parseSemVer "" = Option.none := by decide
  rw [this] at h
  exact Option.noConfusion h

/-- C1 (amended): for version strings that both parse, classifyRiskGroup
returns, when target is strictly above installed, prerelease if the target
has a prerelease component, otherwise the first differing numeric
component in major-minor-patch priority order, and none when no numeric
component differs (the target is the plain release of an installed
prerelease); equal parsed versions give none; installed above target gives
unknown; and a missing or unparseable version on either side gives
unknown. -/
theorem classifyRiskGroup_correct :
    (∀ cs ts c t, parseSemVer cs = some c → parseSemVer ts = some t →
      ((compareSemVer c t < 0 →
        classifyRiskGroup (some cs) (some ts) =
          (if t.prerelease ≠ [] then .prerelease
           else if c.major ≠ t.major then .major
           else if c.minor ≠ t.minor then .minor
           else if c.patch ≠ t.patch then .patch
           else .none)) ∧
       (compareSemVer c t = 0 →
        classifyRiskGroup (some cs) (some ts) = .none) ∧
       (compareSemVer c t > 0 →
        classifyRiskGroup (some cs) (some ts) = .unknown))) ∧
    (∀ co tgt : Option String,
      (co.bind parseSemVer = Option.none ∨ tgt.bind parseSemVer = Option.none) →
      classifyRiskGroup co tgt = .unknown) := by
  constructor
  · intro cs ts c t hc ht
    have hcs := parseSemVer_ne_empty hc
    have hts := parseSemVer_ne_empty ht
    have heval := classifyRiskGroup_some_some cs ts c t hcs hts hc ht
    refine ⟨?_, ?_, ?_⟩ <;> intro hcmp
    · rw [heval, if_neg (by omega), if_neg (by omega)]
      have hcases : c.major < t.major ∨ (c.major = t.major ∧ (c.minor < t.minor ∨
          (c.minor = t.minor ∧ (c.patch < t.patch ∨ (c.patch = t.patch ∧
            comparePre c.prerelease t.prerelease < 0))))) := by
        rw [compareSemVer_eq] at hcmp
        split_ifs at hcmp with h1 h2 h3 h4 h5 h6
        · exact Or.inl h1
        · exact absurd hcmp (by decide)
        · exact Or.inr ⟨by omega, Or.inl h3⟩
        · exact absurd hcmp (by decide)
        · exact Or.inr ⟨by omega, Or.inr ⟨by omega, Or.inl h5⟩⟩
        · exact absurd hcmp (by decide)
        · exact Or.inr ⟨by omega, Or.inr ⟨by omega, Or.inr ⟨by omega, hcmp⟩⟩⟩
      by_cases hpre : t.prerelease = []
      · rw [hpre]
        have h0 : ¬(List.length ([] : List PreId) > 0) := by decide
        have h0b : ¬(([] : List PreId) ≠ []) := by simp
        rw [if_neg h0, if_neg h0b]
        rcases hcases with h1 | ⟨h1, h2 | ⟨h2, h3 | ⟨h3, _⟩⟩⟩ <;>
          split_ifs <;> first | rfl | omega
      · have hlen : t.prerelease.length > 0 := List.length_pos.mpr hpre
        rw [if_pos hlen, if_pos hpre]
    · rw [heval, if_pos hcmp]
    · rw [heval, if_neg (by omega), if_pos hcmp]
  · intro co tgt hnone
    match co, tgt with
    | Option.none, _ => rfl
    | some cv, Option.none => rfl
    | some cv, some tv =>
      by_cases he : cv = "" ∨ tv = ""
      · simp only [classifyRiskGroup, if_pos he]
      · simp only [classifyRiskGroup, if_neg he]
        rcases hnone with h | h
        · replace h : parseSemVer cv = Option.none := h
          rw [h]
        · replace h : parseSemVer tv = Option.none := h
          rw [h]
          cases parseSemVer cv <;> rfl

/-- Witness for C1 at concrete inputs: 1.2.3 to 2.0.0-rc.1 is classified
prerelease, 1.2.3 to 1.4.0 is classified minor, and an unparseable
installed version is classified unknown. -/
theorem classifyRiskGroup_correct_witness :
    classifyRiskGroup (some "1.2.3") (some "2.0.0-rc.1") = .prerelease ∧
    classifyRiskGroup (some "1.2.3") (some "1.4.0") = .minor ∧
    classifyRiskGroup (some "not-a-version") (some "1.0.0") = .unknown := by
  refine ⟨?_, ?_, ?_⟩
  · have h := (classifyRiskGroup_correct.1 "1.2.3" "2.0.0-rc.1"
      ⟨1, 2, 3, [], []⟩ ⟨2, 0, 0, [.str "rc", .num 1], []⟩
      (by decide) (by decide)).1 (by decide)
    rw [h]
    decide
  · have h := (classifyRiskGroup_correct.1 "1.2.3" "1.4.0"
      ⟨1, 2, 3, [], []⟩ ⟨1, 4, 0, [], []⟩
      (by decide) (by decide)).1 (by decide)
    rw [h]
    decide
  · exact classifyRiskGroup_correct.2 (some "not-a-version") (some "1.0.0")
      (Or.inl (by decide))

/-- C1 counterexample: for installed 1.0.0-alpha and target 1.0.0 the two
versions parse, the target is strictly above the installed version, yet
classifyRiskGroup returns none rather than one of major, minor, patch,
prerelease. -/
theorem classifyRiskGroup_claim_counterexample :
    parseSemVer "1.0.0-alpha" = some ⟨1, 0, 0, [.str "alpha"], []⟩ ∧
    parseSemVer "1.0.0" = some ⟨1, 0, 0, [], []⟩ ∧
    compareSemVer ⟨1, 0, 0, [.str "alpha"], []⟩ ⟨1, 0, 0, [], []⟩ < 0 ∧
    classifyRiskGroup (some "1.0.0-alpha") (some "1.0.0") = .none := by
  refine ⟨by decide, by decide, by decide, by decide⟩

/-- C9: applying the risk filter with risk all is the identity on the
candidate list, and for every risk value the result is a subsequence of
the input, so candidates are never mutated, reordered or altered. -/
theorem applyRiskFilter_identity_and_sublist :
    (∀ candidates, applyRiskFilter candidates .all = candidates) ∧
    (∀ candidates risk, (applyRiskFilter candidates risk).Sublist candidates) := by
  constructor
  · intro cs
    rfl
  · intro cs risk
    unfold applyRiskFilter
    split
    · exact List.Sublist.refl _
    · exact List.filter_sublist _

theorem insertLe_perm {α : Type} (le : α → α → Bool) (a : α) (l : List α) :
    (insertLe le a l).Perm (a :: l) := by
  induction l with
  | nil => exact List.Perm.refl _
  | cons b l ih =>
    unfold insertLe
    split
    · exact List.Perm.refl _
    · exact (ih.cons b).trans (List.Perm.swap a b l)

theorem sortLe_perm {α : Type} (le : α → α → Bool) (l : List α) :
    (sortLe le l).Perm l := by
  induction l with
  | nil => exact List.Perm.refl _
  | cons a l ih =>
    exact (insertLe_perm le a (sortLe le l)).trans (ih.cons a)

theorem insertLe_pairwise {α : Type} {le : α → α → Bool}
    (htrans : ∀ a b c, le a b = true → le b c = true → le a c = true)
    (htotal : ∀ a b, le a b = true ∨ le b a = true)
    (a : α) (l : List α) (hl : l.Pairwise (fun x y => le x y = true)) :
    (insertLe le a l).Pairwise (fun x y => le x y = true) := by
  induction l with
  | nil => exact List.pairwise_singleton _ _
  | cons b l ih =>
    rw [List.pairwise_cons] at hl
    unfold insertLe
    split
    · rename_i hab
      refine List.pairwise_cons.mpr ⟨?_, List.pairwise_cons.mpr hl⟩
      intro x hx
      rcases List.mem_cons.mp hx with rfl | hx
      · exact hab
      · exact htrans a b x hab (hl.1 x hx)
    · rename_i hab
      have hba : le b a = true := (htotal a b).resolve_left hab
      refine List.pairwise_cons.mpr ⟨?_, ih hl.2⟩
      intro x hx
      have := (insertLe_perm le a l).mem_iff.mp hx
      rcases List.mem_cons.mp this with rfl | hx2
      · exact hba
      · exact hl.1 x hx2

theorem sortLe_pairwise {α : Type} {le : α → α → Bool}
    (htrans : ∀ a b c, le a b = true → le b c = true → le a c = true)
    (htotal : ∀ a b, le a b = true ∨ le b a = true)
    (l : List α) :
    (sortLe le l).Pairwise (fun x y => le x y = true) := by
  induction l with
  | nil => exact List.Pairwise.nil
  | cons a l ih => exact insertLe_pairwise htrans htotal a (sortLe le l) ih

/-- Unfolding lemma for countVersionDeltaGo on a cons cell. -/
theorem countVersionDeltaGo_cons (base : String) (bM bm bp : Nat)
    (version : String) (rest : List String) :
    countVersionDeltaGo base bM bm bp (version :: rest) =
      (let delta := countVersionDeltaGo base bM bm bp rest
       if version = base then delta
       else if semverPrerelease version then
         { delta with prerelease := delta.prerelease + 1 }
       else if semverMajor version > bM then
         { delta with major := delta.major + 1 }
       else if semverMajor version = bM ∧ semverMinor version > bm then
         { delta with minor := delta.minor + 1 }
       else if semverMajor version = bM ∧ semverMinor version = bm ∧
           semverPatch version > bp then
         { delta with patch := delta.patch + 1 }
       else delta) := rfl

/-- Filtering out one value, on a cons cell. -/
theorem filterNeCons {α : Type} [DecidableEq α] (a b : α) (l : List α) :
    (a :: l).filter (fun x => x ≠ b) =
      if a = b then l.filter (fun x => x ≠ b)
      else a :: l.filter (fun x => x ≠ b) := by
  by_cases h : a = b <;> simp [List.filter_cons, h]

/-- Versions equal to the base string never contribute to any bucket. -/
theorem countVersionDeltaGo_filter_base (base : String)
    (bM bm bp : Nat) (versions : List String) :
    countVersionDeltaGo base bM bm bp versions =
      countVersionDeltaGo base bM bm bp
        (versions.filter fun v => v ≠ base) := by
  induction versions with
  | nil => rfl
  | cons v rest ih =>
    rw [filterNeCons v base rest]
    by_cases hv : v = base
    · rw [if_pos hv]
      simp only [countVersionDeltaGo_cons]
      rw [if_pos hv]
      exact ih
    · rw [if_neg hv]
      simp only [countVersionDeltaGo_cons]
      simp only [if_neg hv]
      rw [ih]

/-- Each processed version adds at most one to the bucket totals. -/
theorem countVersionDeltaGo_total_le (base : String)
    (bM bm bp : Nat) (versions : List String) :
    (countVersionDeltaGo base bM bm bp versions).major +
      (countVersionDeltaGo base bM bm bp versions).minor +
      (countVersionDeltaGo base bM bm bp versions).patch +
      (countVersionDeltaGo base bM bm bp versions).prerelease ≤
      versions.length := by
  induction versions with
  | nil => simp [countVersionDeltaGo]
  | cons v rest ih =>
    simp only [countVersionDeltaGo_cons, List.length_cons]
    split_ifs <;> (try simp) <;> omega

/-- Evaluation of the window delta in the counting case. -/
theorem buildVersionWindow_delta_eq (registry : NpmRegistryPackage)
    (installed target vfrom vto : String)
    (hf : semverValid installed = some vfrom)
    (ht : semverValid target = some vto)
    (hle : ¬semverCompareStr vfrom vto > 0) :
    (buildVersionWindow registry installed target).delta =
      countVersionDelta
        (((getRegistryVersionKeys registry).filter fun version =>
            semverGteStr version vfrom && semverLteStr version vto).filter
          fun version => version ≠ vfrom) vfrom := by
  simp only [buildVersionWindow, hf, ht, if_neg hle]
  exact countVersionDeltaGo_filter_base vfrom (semverMajor vfrom)
    (semverMinor vfrom) (semverPatch vfrom) _

/-- C2 (amended): the version window is all-zero whenever either endpoint
fails to resolve to a valid semantic version or installed is above target;
otherwise its delta is computed from exactly the published versions lying
in the inclusive window between installed and target with the normalized
installed version string itself excluded — so the installed version is
never counted, while the target itself is (see the counterexample) — and
each counted version contributes at most one bucket increment, so the
four bucket totals never exceed the number of such versions. -/
theorem buildVersionWindow_correct :
    (∀ registry installed target,
      (semverValid installed = Option.none ∨ semverValid target = Option.none) →
      buildVersionWindow registry installed target = createEmptyVersionWindow) ∧
    (∀ registry installed target vfrom vto,
      semverValid installed = some vfrom → semverValid target = some vto →
      semverCompareStr vfrom vto > 0 →
      buildVersionWindow registry installed target = createEmptyVersionWindow) ∧
    (∀ registry installed target vfrom vto,
      semverValid installed = some vfrom → semverValid target = some vto →
      ¬semverCompareStr vfrom vto > 0 →
      (buildVersionWindow registry installed target).delta =
        countVersionDelta
          (((getRegistryVersionKeys registry).filter fun version =>
              semverGteStr version vfrom && semverLteStr version vto).filter
            fun version => version ≠ vfrom) vfrom) ∧
    (∀ registry installed target vfrom vto,
      semverValid installed = some vfrom → semverValid target = some vto →
      ¬semverCompareStr vfrom vto > 0 →
      (buildVersionWindow registry installed target).delta.major +
        (buildVersionWindow registry installed target).delta.minor +
        (buildVersionWindow registry installed target).delta.patch +
        (buildVersionWindow registry installed target).delta.prerelease ≤
        (((getRegistryVersionKeys registry).filter fun version =>
            semverGteStr version vfrom && semverLteStr version vto).filter
          fun version => version ≠ vfrom).length) := by
  refine ⟨?_, ?_, ?_, ?_⟩
  · intro registry installed target hnone
    unfold buildVersionWindow
    rcases hnone with h | h
    · rw [h]
    · rw [h]
      rcases semverValid installed with _ | iv <;> rfl
  · intro registry installed target vfrom vto hf ht hgt
    simp only [buildVersionWindow, hf, ht, if_pos hgt]
  · intro registry installed target vfrom vto hf ht hle
    exact buildVersionWindow_delta_eq registry installed target vfrom vto hf ht hle
  · intro registry installed target vfrom vto hf ht hle
    rw [buildVersionWindow_delta_eq registry installed target vfrom vto hf ht hle]
    exact countVersionDeltaGo_total_le vfrom (semverMajor vfrom)
      (semverMinor vfrom) (semverPatch vfrom) _

/-- Witness for C2 at concrete inputs: an unparseable target yields the
empty window, and a concrete window delta is exactly the count over the
in-window registry versions other than the installed one. -/
theorem buildVersionWindow_correct_witness :
    buildVersionWindow ⟨some ["1.0.0", "1.1.0"], Option.none⟩ "0.9.0" "bad" =
      createEmptyVersionWindow ∧
    (buildVersionWindow ⟨some ["1.0.0", "1.1.0", "2.0.0"], Option.none⟩
        "1.0.0" "2.0.0").delta =
      countVersionDelta
        (((getRegistryVersionKeys
              ⟨some ["1.0.0", "1.1.0", "2.0.0"], Option.none⟩).filter
            fun version =>
              semverGteStr version "1.0.0" && semverLteStr version "2.0.0").filter
          fun version => version ≠ "1.0.0") "1.0.0" := by
  constructor
  · exact buildVersionWindow_correct.1 _ "0.9.0" "bad" (Or.inr (by decide))
  · exact buildVersionWindow_correct.2.2.1
      ⟨some ["1.0.0", "1.1.0", "2.0.0"], Option.none⟩ "1.0.0" "2.0.0"
      "1.0.0" "2.0.0" (by decide) (by decide) (by decide)

/-- C2 counterexample: with registry versions 1.0.0 and 1.0.1, installed
1.0.0 and target 1.0.1, no published version lies strictly between
installed and target, yet the patch bucket counts 1 — the target version
itself is counted, so the window does not count only versions strictly
between the endpoints. -/
theorem buildVersionWindow_claim_counterexample :
    (buildVersionWindow ⟨some ["1.0.0", "1.0.1"], Option.none⟩
        "1.0.0" "1.0.1").delta.patch = 1 ∧
    (getRegistryVersionKeys ⟨some ["1.0.0", "1.0.1"], Option.none⟩).filter
        (fun version =>
          semverCompareStr "1.0.0" version < 0 &&
          semverCompareStr version "1.0.1" < 0) = [] := by
  refine ⟨by decide, by decide⟩

/-- coerceFlat succeeds exactly when every value is a string. -/
theorem coerceFlat_ok_iff (entries : List (String × JVal)) :
    (∃ flat, coerceFlat entries = .ok flat) ↔
      ∀ e ∈ entries, isStrJ e.2 = true := by
  induction entries with
  | nil => simp [coerceFlat]
  | cons hd rest ih =>
    obtain ⟨packageName, suggestedRange⟩ := hd
    cases suggestedRange
    case str s =>
      constructor
      · rintro ⟨flat, hflat⟩ e he
        rcases List.mem_cons.mp he with rfl | he2
        · rfl
        · refine ih.mp ?_ e he2
          simp only [coerceFlat] at hflat
          rcases hrest : coerceFlat rest with e2 | flat2
          · rw [hrest] at hflat
            exact Except.noConfusion hflat
          · exact ⟨flat2, rfl⟩
      · intro hall
        obtain ⟨flat2, hrest⟩ :=
          ih.mpr fun e he => hall e (List.mem_cons_of_mem _ he)
        exact ⟨(packageName, s) :: flat2, by simp only [coerceFlat, hrest]⟩
    all_goals
      constructor
      · rintro ⟨flat, hflat⟩
        exact absurd hflat (by simp [coerceFlat])
      · intro hall
        have h := hall _ (List.mem_cons_self _ _)
        simp [isStrJ] at h

/-- coerceWorkspaces succeeds exactly when every value is a record of
strings. -/
theorem coerceWorkspaces_ok_iff (entries : List (String × JVal)) :
    (∃ ws, coerceWorkspaces entries = .ok ws) ↔
      ∀ e ∈ entries, isObjOfStrings e.2 = true := by
  induction entries with
  | nil => simp [coerceWorkspaces]
  | cons hd rest ih =>
    obtain ⟨packageFile, upgrades⟩ := hd
    by_cases hrec : isRecordJ upgrades = true
    · constructor
      · rintro ⟨ws, hws⟩ e he
        simp only [coerceWorkspaces, hrec, if_true] at hws
        rcases hflat : coerceFlat (jsEntries upgrades) with e2 | flat
        · rw [hflat] at hws
          exact Except.noConfusion hws
        · rw [hflat] at hws
          rcases List.mem_cons.mp he with rfl | he2
          · have hall := (coerceFlat_ok_iff (jsEntries upgrades)).mp ⟨flat, hflat⟩
            simp only [isObjOfStrings, hrec, Bool.true_and]
            exact List.all_eq_true.mpr hall
          · refine ih.mp ?_ e he2
            rcases hrest : coerceWorkspaces rest with e3 | ws2
            · rw [hrest] at hws
              exact Except.noConfusion hws
            · exact ⟨ws2, rfl⟩
      · intro hall
        have hhd := hall _ (List.mem_cons_self _ _)
        simp only [isObjOfStrings, hrec, Bool.true_and] at hhd
        obtain ⟨flat, hflat⟩ :=
          (coerceFlat_ok_iff (jsEntries upgrades)).mpr (List.all_eq_true.mp hhd)
        obtain ⟨ws2, hrest⟩ :=
          ih.mpr fun e he => hall e (List.mem_cons_of_mem _ he)
        refine ⟨(packageFile, flat) :: ws2, ?_⟩
        simp only [coerceWorkspaces, hrec, if_true, hflat, hrest]
    · constructor
      · rintro ⟨ws, hws⟩
        simp [coerceWorkspaces, hrec] at hws
      · intro hall
        have hhd := hall _ (List.mem_cons_self _ _)
        simp only [isObjOfStrings] at hhd
        rw [Bool.eq_false_iff.mpr hrec] at hhd
        exact absurd hhd (by simp)

/-- C3 (amended): the coercion treats the result as the nested workspace
shape exactly when some top-level key ends with package.json (not when
some value is an object); in the nested branch it succeeds if and only if
every value is a record of strings, in the flat branch it succeeds if and
only if every value is a string, and otherwise — including every
non-record result — it throws Invalid upgraded dependencies found, while
an undefined result passes through. -/
theorem coerceNcuUpgraded_correct :
    (∀ fields : List (String × JVal),
      looksLikeWorkspaces fields = true →
      ((∃ ws, coerceNcuUpgraded (some (.obj fields)) =
          .ok (some (.workspaces ws))) ↔
        ∀ e ∈ fields, isObjOfStrings e.2 = true)) ∧
    (∀ fields : List (String × JVal),
      looksLikeWorkspaces fields = false →
      ((∃ flat, coerceNcuUpgraded (some (.obj fields)) =
          .ok (some (.flat flat))) ↔
        ∀ e ∈ fields, isStrJ e.2 = true)) ∧
    (∀ v : JVal, isRecordJ v = false →
      coerceNcuUpgraded (some v) =
        .error "Invalid upgraded dependencies found") ∧
    coerceNcuUpgraded none = .ok none := by
  have hentries : ∀ fields : List (String × JVal),
      jsEntries (JVal.obj fields) = fields := fun _ => rfl
  refine ⟨?_, ?_, ?_, rfl⟩
  · intro fields hlw
    by_cases hnil : fields = []
    · rw [hnil] at hlw
      exact absurd hlw (by decide)
    · have hne : fields.isEmpty = false := by
        cases fields
        · exact absurd rfl hnil
        · rfl
      constructor
      · rintro ⟨ws, hws⟩
        simp only [coerceNcuUpgraded, isRecordJ, Bool.not_true, Bool.false_eq_true,
          if_false, hentries, hne, hlw, if_true] at hws
        rcases hcw : coerceWorkspaces fields with e | ws2
        · rw [hcw] at hws
          exact Except.noConfusion hws
        · exact (coerceWorkspaces_ok_iff fields).mp ⟨ws2, hcw⟩
      · intro hall
        obtain ⟨ws, hws⟩ := (coerceWorkspaces_ok_iff fields).mpr hall
        refine ⟨ws, ?_⟩
        simp only [coerceNcuUpgraded, isRecordJ, Bool.not_true, Bool.false_eq_true,
          if_false, hentries, hne, hlw, if_true, hws]
  · intro fields hlw
    by_cases hnil : fields = []
    · subst hnil
      constructor
      · intro _ e he
        exact absurd he (List.not_mem_nil e)
      · intro _
        exact ⟨[], rfl⟩
    · have hne : fields.isEmpty = false := by
        cases fields
        · exact absurd rfl hnil
        · rfl
      constructor
      · rintro ⟨flat, hflat⟩
        simp only [coerceNcuUpgraded, isRecordJ, Bool.not_true, Bool.false_eq_true,
          if_false, hentries, hne, hlw, Bool.true_eq_false] at hflat
        rcases hcf : coerceFlat fields with e | flat2
        · rw [hcf] at hflat
          exact Except.noConfusion hflat
        · exact (coerceFlat_ok_iff fields).mp ⟨flat2, hcf⟩
      · intro hall
        obtain ⟨flat, hflat⟩ := (coerceFlat_ok_iff fields).mpr hall
        refine ⟨flat, ?_⟩
        simp only [coerceNcuUpgraded, isRecordJ, Bool.not_true, Bool.false_eq_true,
          if_false, hentries, hne, hlw, Bool.true_eq_false, hflat]
  · intro v hv
    simp [coerceNcuUpgraded, hv]

/-- Witness for C3 at concrete inputs: a mapping keyed by a package.json
path coerces to the nested shape, a plain string mapping coerces to the
flat shape, and a non-record result throws. -/
theorem coerceNcuUpgraded_correct_witness :
    (∃ ws, coerceNcuUpgraded (some (.obj [("packages/a/package.json",
        .obj [("lodash", .str "^5.0.0")])])) = .ok (some (.workspaces ws))) ∧
    (∃ flat, coerceNcuUpgraded (some (.obj [("react", .str "^19.0.0")])) =
        .ok (some (.flat flat))) ∧
    coerceNcuUpgraded (some (.str "oops")) =
      .error "Invalid upgraded dependencies found" := by
  refine ⟨?_, ?_, ?_⟩
  · exact (coerceNcuUpgraded_correct.1 _ (by decide)).mpr (by decide)
  · exact (coerceNcuUpgraded_correct.2.1 _ (by decide)).mpr (by decide)
  · exact coerceNcuUpgraded_correct.2.2.1 _ (by decide)

/-- C3 counterexample: a mapping whose values are all strings (so no
top-level value is an object — by the claim it is coercible to the flat
shape and must not throw), but one key ends with package.json, so the
coercion takes the nested branch and throws. -/
theorem coerceNcuUpgraded_claim_counterexample :
    ([("a", JVal.str "1.0.0"), ("b/package.json", JVal.str "2.0.0")].all
        fun e => isStrJ e.2) = true ∧
    ([("a", JVal.str "1.0.0"), ("b/package.json", JVal.str "2.0.0")].any
        fun e => isRecordJ e.2) = false ∧
    coerceNcuUpgraded (some (.obj [("a", JVal.str "1.0.0"),
        ("b/package.json", JVal.str "2.0.0")])) =
      .error "Invalid upgraded dependencies found" := by
  refine ⟨by decide, by decide, by decide⟩

/-- C4 (amended): the bun lockfile entry lodash@4.17.21+sha yields
4.17.21+sha — normalization strips only parenthesized suffixes, not plus
suffixes — while lodash@4.17.21 yields 4.17.21 and a parenthesized peer
annotation is stripped by normalization. -/
theorem extractBunVersion_correct :
    extractBunVersion (.str "lodash@4.17.21+sha") = some "4.17.21+sha" ∧
    extractBunVersion (.str "lodash@4.17.21") = some "4.17.21" ∧
    normalizeInstalledVersion "4.17.21(react@18.2.0)" = "4.17.21" ∧
    extractBunVersion (.str "lodash@") = none := by
  refine ⟨by decide, by decide, by decide, by decide⟩

/-- C4 counterexample: the entry lodash@4.17.21+sha does not yield
4.17.21; the plus suffix survives extraction because normalization only
strips parenthesized suffixes. -/
theorem extractBunVersion_claim_counterexample :
    extractBunVersion (.str "lodash@4.17.21+sha") = some "4.17.21+sha" ∧
    ¬extractBunVersion (.str "lodash@4.17.21+sha") = some "4.17.21" := by
  exact ⟨by decide, by decide⟩


/-- C5 (amended): no lookup builder throws past its boundary (each is a
total function into lookup functions); the npm, pnpm and bun builders
return the always-null lookup on a read failure, a parse failure, a
non-record document, or a missing top-level structure (packages and
dependencies for npm, importers for pnpm, packages for bun); the yarn
builder returns the always-null lookup on a read failure, but recovers
from a Berry YAML parse failure or non-record document by the classic
line parser, which can produce non-null lookups (see the
counterexample). -/
theorem lockfileLookups_error_policy :
    (∀ jsonParse packageFile packageName currentRange,
      createNpmInstalledVersionLookup jsonParse none
        packageFile packageName currentRange = none) ∧
    (∀ jsonParse raw, jsonParse raw = none →
      ∀ packageFile packageName currentRange,
        createNpmInstalledVersionLookup jsonParse (some raw)
          packageFile packageName currentRange = none) ∧
    (∀ jsonParse raw parsed, jsonParse raw = some parsed →
      isRecordJ parsed = false →
      ∀ packageFile packageName currentRange,
        createNpmInstalledVersionLookup jsonParse (some raw)
          packageFile packageName currentRange = none) ∧
    (∀ jsonParse raw parsed, jsonParse raw = some parsed →
      recordField parsed "packages" = none →
      recordField parsed "dependencies" = none →
      ∀ packageFile packageName currentRange,
        createNpmInstalledVersionLookup jsonParse (some raw)
          packageFile packageName currentRange = none) ∧
    (∀ yamlParse packageFile packageName currentRange,
      createPnpmInstalledVersionLookup yamlParse none
        packageFile packageName currentRange = none) ∧
    (∀ yamlParse raw, yamlParse raw = none →
      ∀ packageFile packageName currentRange,
        createPnpmInstalledVersionLookup yamlParse (some raw)
          packageFile packageName currentRange = none) ∧
    (∀ yamlParse raw parsed, yamlParse raw = some parsed →
      isRecordJ parsed = false →
      ∀ packageFile packageName currentRange,
        createPnpmInstalledVersionLookup yamlParse (some raw)
          packageFile packageName currentRange = none) ∧
    (∀ yamlParse raw parsed, yamlParse raw = some parsed →
      recordField parsed "importers" = none →
      ∀ packageFile packageName currentRange,
        createPnpmInstalledVersionLookup yamlParse (some raw)
          packageFile packageName currentRange = none) ∧
    (∀ jsonParse packageFile packageName currentRange,
      createBunInstalledVersionLookup jsonParse none
        packageFile packageName currentRange = none) ∧
    (∀ jsonParse raw, parseBunLockfile jsonParse raw = none →
      ∀ packageFile packageName currentRange,
        createBunInstalledVersionLookup jsonParse (some raw)
          packageFile packageName currentRange = none) ∧
    (∀ jsonParse raw parsed, parseBunLockfile jsonParse raw = some parsed →
      recordField parsed "packages" = none →
      ∀ packageFile packageName currentRange,
        createBunInstalledVersionLookup jsonParse (some raw)
          packageFile packageName currentRange = none) ∧
    (∀ yamlParse packageFile packageName currentRange,
      createYarnInstalledVersionLookup yamlParse none
        packageFile packageName currentRange = none) := by
  refine ⟨?_, ?_, ?_, ?_, ?_, ?_, ?_, ?_, ?_, ?_, ?_, ?_⟩
  · intro jsonParse pf pn cr
    rfl
  · intro jsonParse raw h pf pn cr
    simp only [createNpmInstalledVersionLookup, h]
  · intro jsonParse raw parsed h hrec pf pn cr
    simp only [createNpmInstalledVersionLookup, h, hrec]
    rfl
  · intro jsonParse raw parsed h hp hd pf pn cr
    simp only [createNpmInstalledVersionLookup, h]
    by_cases hrec : isRecordJ parsed
    · simp only [hrec, Bool.not_true, Bool.false_eq_true, if_false, hp, hd]
    · simp [hrec]
  · intro yamlParse pf pn cr
    rfl
  · intro yamlParse raw h pf pn cr
    simp only [createPnpmInstalledVersionLookup, h]
  · intro yamlParse raw parsed h hrec pf pn cr
    simp only [createPnpmInstalledVersionLookup, h, hrec]
    rfl
  · intro yamlParse raw parsed h hi pf pn cr
    simp only [createPnpmInstalledVersionLookup, h]
    by_cases hrec : isRecordJ parsed
    · simp only [hrec, Bool.not_true, Bool.false_eq_true, if_false, hi]
    · simp [hrec]
  · intro jsonParse pf pn cr
    rfl
  · intro jsonParse raw h pf pn cr
    simp only [createBunInstalledVersionLookup, h]
  · intro jsonParse raw parsed h hp pf pn cr
    simp only [createBunInstalledVersionLookup, h, hp]
  · intro yamlParse pf pn cr
    rfl

/-- Witness for C5 at concrete inputs: a parse failure for npm, a
non-record YAML document for pnpm, and read failures for bun and yarn all
yield null lookups. -/
theorem lockfileLookups_error_policy_witness :
    createNpmInstalledVersionLookup (fun _ => none) (some "not json")
      "package.json" "lodash" "^1.0.0" = none ∧
    createPnpmInstalledVersionLookup (fun _ => some (.str "scalar"))
      (some "raw") "package.json" "lodash" "^1.0.0" = none ∧
    createBunInstalledVersionLookup (fun _ => none) none
      "package.json" "lodash" "^1.0.0" = none ∧
    createYarnInstalledVersionLookup (fun _ => some .null) none
      "package.json" "lodash" "^1.0.0" = none := by
  refine ⟨?_, ?_, ?_, ?_⟩
  · exact lockfileLookups_error_policy.2.1 _ "not json" rfl
      "package.json" "lodash" "^1.0.0"
  · exact lockfileLookups_error_policy.2.2.2.2.2.2.1 _ "raw" (.str "scalar")
      rfl rfl "package.json" "lodash" "^1.0.0"
  · exact lockfileLookups_error_policy.2.2.2.2.2.2.2.2.1 _
      "package.json" "lodash" "^1.0.0"
  · exact lockfileLookups_error_policy.2.2.2.2.2.2.2.2.2.2.2 _
      "package.json" "lodash" "^1.0.0"

/-- C5 counterexample: a lockfile text that contains the Berry metadata
marker but is not valid YAML (the unclosed flow sequence makes the yaml
library throw, so the parse oracle returns none).  The claim requires an
always-null lookup after this parse error, but the yarn builder falls
back to the classic line parser, which indexes the classic-style lines
below the marker and returns a version. -/
theorem yarnLookup_claim_counterexample :
    strIncludes "__metadata: [\nlodash@^4.17.0:\n  version \"4.17.21\"\n"
      "__metadata:" = true ∧
    createYarnInstalledVersionLookup (fun _ => none)
      (some "__metadata: [\nlodash@^4.17.0:\n  version \"4.17.21\"\n")
      "package.json" "lodash" "^4.17.0" = some "4.17.21" := by
  refine ⟨by decide, by decide⟩

/-- C10: for every yarn lockfile outcome (read failure, Berry or classic)
the installed-version lookup with an empty current range returns null —
an empty range also never matches any descriptor — so candidates absent
from the manifest dependency maps never receive an installed version from
a yarn lockfile. -/
theorem yarnLookup_empty_range_always_null :
    (∀ yamlParse readResult packageFile packageName,
      createYarnInstalledVersionLookup yamlParse readResult
        packageFile packageName "" = none) ∧
    (∀ descriptor packageName,
      matchesYarnDescriptor descriptor packageName "" = false) := by
  constructor
  · intro yamlParse readResult pf pn
    cases readResult with
    | none => rfl
    | some raw => rfl
  · intro descriptor packageName
    rfl

/-- A string append with a nonempty left part is nonempty. -/
theorem strAppend_ne_empty_left (a b : String) (h : a ≠ "") : a ++ b ≠ "" := by
  intro hab
  apply h
  obtain ⟨ad⟩ := a
  obtain ⟨bd⟩ := b
  have hd : ad ++ bd = ([] : List Char) := congrArg String.data hab
  have had : ad = [] := (List.append_eq_nil.mp hd).1
  rw [had]

/-- A string append with a nonempty right part is nonempty. -/
theorem strAppend_ne_empty_right (a b : String) (h : b ≠ "") : a ++ b ≠ "" := by
  intro hab
  apply h
  obtain ⟨ad⟩ := a
  obtain ⟨bd⟩ := b
  have hd : ad ++ bd = ([] : List Char) := congrArg String.data hab
  have hbd : bd = [] := (List.append_eq_nil.mp hd).2
  rw [hbd]

/-- Compare URLs are never empty. -/
theorem buildCompareUrl_ne_empty (repoUrl : String) (pair : CompareTagPair) :
    buildCompareUrl repoUrl pair ≠ "" := by
  exact strAppend_ne_empty_left _ _
    (strAppend_ne_empty_right _ _ (by decide))

/-- The compare probe loop only returns computed compare URLs. -/
theorem buildCompareEvidenceGo_ne_empty (reachable : String → Bool)
    (repositoryUrl : String) :
    ∀ pairs u, buildCompareEvidenceGo reachable repositoryUrl pairs = some u →
      u ≠ "" := by
  intro pairs
  induction pairs with
  | nil =>
    intro u h
    exact Option.noConfusion h
  | cons pair rest ih =>
    intro u h
    simp only [buildCompareEvidenceGo] at h
    split at h
    · injection h with h2
      rw [← h2]
      exact buildCompareUrl_ne_empty _ _
    · exact ih u h

/-- A compare evidence link is never empty. -/
theorem buildCompareEvidence_ne_empty (registry : NpmRegistryPackage)
    (packageName installedVersion targetVersion : String)
    (reachable : String → Bool) (u : String)
    (h : buildCompareEvidence registry packageName installedVersion
      targetVersion reachable = some u) : u ≠ "" := by
  unfold buildCompareEvidence at h
  split at h
  · exact Option.noConfusion h
  · split at h
    · exact buildCompareEvidenceGo_ne_empty _ _ _ u h
    · exact Option.noConfusion h

/-- A releases link is never empty. -/
theorem resolveReleasesUrl_ne_empty (repositoryUrl : String)
    (reachable : String → Bool) (u : String)
    (h : resolveReleasesUrl repositoryUrl reachable = some u) : u ≠ "" := by
  simp only [resolveReleasesUrl] at h
  split at h
  · injection h with h2
    rw [← h2]
    exact strAppend_ne_empty_right _ _ (by decide)
  · exact Option.noConfusion h

/-- The changelog probe loop only returns base-plus-candidate URLs. -/
theorem resolveChangelogGo_ne_empty (reachable : String → Bool)
    (rawBase : String) :
    ∀ cands u, (∀ c ∈ cands, c ≠ "") →
      resolveChangelogGo reachable rawBase cands = some u → u ≠ "" := by
  intro cands
  induction cands with
  | nil =>
    intro u _ h
    exact Option.noConfusion h
  | cons c rest ih =>
    intro u hall h
    simp only [resolveChangelogGo] at h
    split at h
    · injection h with h2
      rw [← h2]
      exact strAppend_ne_empty_right _ _ (hall c (List.mem_cons_self _ _))
    · exact ih u (fun x hx => hall x (List.mem_cons_of_mem _ hx)) h

/-- A changelog link is never empty. -/
theorem resolveChangelogUrl_ne_empty (repositoryUrl : String)
    (reachable : String → Bool) (u : String)
    (h : resolveChangelogUrl repositoryUrl reachable = some u) : u ≠ "" := by
  unfold resolveChangelogUrl at h
  split at h
  · exact Option.noConfusion h
  · exact resolveChangelogGo_ne_empty _ _ changelogCandidates u (by decide) h

/-- An npm diff command string is never empty. -/
theorem buildNpmDiffLink_ne_empty (packageName : String)
    (installedVersion targetVersion : Option String) (u : String)
    (h : buildNpmDiffLink packageName installedVersion targetVersion = some u) :
    u ≠ "" := by
  unfold buildNpmDiffLink at h
  split at h
  · split at h
    · exact Option.noConfusion h
    · injection h with h2
      rw [← h2]
      exact strAppend_ne_empty_left _ _ (strAppend_ne_empty_left _ _
        (strAppend_ne_empty_left _ _ (strAppend_ne_empty_left _ _
          (strAppend_ne_empty_left _ _ (strAppend_ne_empty_left _ _
            (strAppend_ne_empty_left _ _ (by decide)))))))
  · exact Option.noConfusion h

/-- A candidate compare link is never empty. -/
theorem candidateCompareUrl_ne_empty (input : CandidateEvidenceInput)
    (registry : Option NpmRegistryPackage) (reachable : String → Bool)
    (u : String)
    (h : candidateCompareUrl input registry reachable = some u) : u ≠ "" := by
  unfold candidateCompareUrl at h
  split at h
  · rename_i reg iv tv heq
    split at h
    · exact buildCompareEvidence_ne_empty _ _ _ _ _ u h
    · exact Option.noConfusion h
  · exact Option.noConfusion h

/-- A candidate releases link is never empty. -/
theorem candidateReleases_ne_empty (registry : Option NpmRegistryPackage)
    (reachable : String → Bool) (u : String)
    (h : (candidateRepositoryLinks registry reachable).1 = some u) :
    u ≠ "" := by
  unfold candidateRepositoryLinks at h
  split at h
  · rename_i reg
    unfold buildRepositoryEvidenceLinks at h
    split at h
    · exact Option.noConfusion h
    · exact resolveReleasesUrl_ne_empty _ _ u h
  · exact Option.noConfusion h

/-- A candidate changelog link is never empty. -/
theorem candidateChangelog_ne_empty (registry : Option NpmRegistryPackage)
    (reachable : String → Bool) (u : String)
    (h : (candidateRepositoryLinks registry reachable).2 = some u) :
    u ≠ "" := by
  unfold candidateRepositoryLinks at h
  split at h
  · rename_i reg
    unfold buildRepositoryEvidenceLinks at h
    split at h
    · exact Option.noConfusion h
    · exact resolveChangelogUrl_ne_empty _ _ u h
  · exact Option.noConfusion h

/-- buildEvidenceLinks is null exactly when every link is absent, as long
as no present link is the empty string. -/
theorem buildEvidenceLinks_eq_none_iff (links : NextUpdatesEvidenceLinks)
    (hc : ∀ s, links.compare = some s → s ≠ "")
    (hd : ∀ s, links.npmDiffLink = some s → s ≠ "")
    (hr : ∀ s, links.releases = some s → s ≠ "")
    (hch : ∀ s, links.changelog = some s → s ≠ "") :
    (buildEvidenceLinks links = none ↔
      (links.compare = none ∧ links.npmDiffLink = none ∧
       links.releases = none ∧ links.changelog = none)) := by
  obtain ⟨c, d, r, ch⟩ := links
  simp only at hc hd hr hch
  rcases c with _ | cs <;> rcases d with _ | ds <;>
    rcases r with _ | rs <;> rcases ch with _ | chs <;>
    simp_all [buildEvidenceLinks, keepLink]

/-- When the diff link is present and nonempty, buildEvidenceLinks keeps
it and returns evidence. -/
theorem buildEvidenceLinks_some_of_diff (c r ch : Option String) (d : String)
    (hne : d ≠ "") :
    buildEvidenceLinks ⟨c, some d, r, ch⟩ =
      some ⟨⟨keepLink c, some d, keepLink r, keepLink ch⟩⟩ := by
  unfold buildEvidenceLinks
  have hkd : keepLink (some d) = some d := by simp [keepLink, hne]
  simp only [hkd]
  rw [if_neg]
  intro hconj
  exact Option.noConfusion hconj.2.1

/-- C6 (amended): evidence is null exactly when none of the four links
(compare, npm diff, releases, changelog) was established; and whenever
both installedVersion and targetVersion are present and nonempty (the
truthiness test of the source: an empty string counts as missing, see the
counterexample), the npm diff command link is present regardless of any
network outcome, so evidence is non-null. -/
theorem buildCandidateEvidence_correct :
    (∀ input registry reachable,
      ((buildCandidateEvidence input registry reachable).evidence = none ↔
        (candidateCompareUrl input registry reachable = none ∧
         buildNpmDiffLink input.packageName input.installedVersion
           input.targetVersion = none ∧
         (candidateRepositoryLinks registry reachable).1 = none ∧
         (candidateRepositoryLinks registry reachable).2 = none))) ∧
    (∀ input registry reachable iv tv,
      input.installedVersion = some iv → iv ≠ "" →
      input.targetVersion = some tv → tv ≠ "" →
      ∃ e, (buildCandidateEvidence input registry reachable).evidence =
          some e ∧
        e.links.npmDiffLink =
          some ("npm diff --diff " ++ input.packageName ++ "@" ++ iv ++
            " --diff " ++ input.packageName ++ "@" ++ tv)) := by
  constructor
  · intro input registry reachable
    exact buildEvidenceLinks_eq_none_iff
      ⟨candidateCompareUrl input registry reachable,
       buildNpmDiffLink input.packageName input.installedVersion
         input.targetVersion,
       (candidateRepositoryLinks registry reachable).1,
       (candidateRepositoryLinks registry reachable).2⟩
      (fun s hs => candidateCompareUrl_ne_empty _ _ _ s hs)
      (fun s hs => buildNpmDiffLink_ne_empty _ _ _ s hs)
      (fun s hs => candidateReleases_ne_empty _ _ s hs)
      (fun s hs => candidateChangelog_ne_empty _ _ s hs)
  · intro input registry reachable iv tv hiv hivne htv htvne
    have hdiff : buildNpmDiffLink input.packageName input.installedVersion
        input.targetVersion =
        some ("npm diff --diff " ++ input.packageName ++ "@" ++ iv ++
          " --diff " ++ input.packageName ++ "@" ++ tv) := by
      rw [hiv, htv]
      simp only [buildNpmDiffLink]
      rw [if_neg]
      rintro (h | h)
      · exact hivne h
      · exact htvne h
    refine ⟨⟨⟨keepLink (candidateCompareUrl input registry reachable),
        some ("npm diff --diff " ++ input.packageName ++ "@" ++ iv ++
          " --diff " ++ input.packageName ++ "@" ++ tv),
        keepLink (candidateRepositoryLinks registry reachable).1,
        keepLink (candidateRepositoryLinks registry reachable).2⟩⟩, ?_, rfl⟩
    show buildEvidenceLinks _ = _
    rw [show (⟨candidateCompareUrl input registry reachable,
        buildNpmDiffLink input.packageName input.installedVersion
          input.targetVersion,
        (candidateRepositoryLinks registry reachable).1,
        (candidateRepositoryLinks registry reachable).2⟩ :
        NextUpdatesEvidenceLinks) =
      ⟨candidateCompareUrl input registry reachable,
        some ("npm diff --diff " ++ input.packageName ++ "@" ++ iv ++
          " --diff " ++ input.packageName ++ "@" ++ tv),
        (candidateRepositoryLinks registry reachable).1,
        (candidateRepositoryLinks registry reachable).2⟩ from by rw [hdiff]]
    exact buildEvidenceLinks_some_of_diff _ _ _ _
      (strAppend_ne_empty_left _ _ (strAppend_ne_empty_left _ _
        (strAppend_ne_empty_left _ _ (strAppend_ne_empty_left _ _
          (strAppend_ne_empty_left _ _ (strAppend_ne_empty_left _ _
            (strAppend_ne_empty_left _ _ (by decide))))))))

/-- Witness for C6 at a concrete input: with no registry data and no
reachable URL, a candidate with two nonempty versions still gets
evidence carrying exactly the npm diff command. -/
theorem buildCandidateEvidence_correct_witness :
    ∃ e, (buildCandidateEvidence ⟨"lodash", some "4.17.20", some "4.17.21"⟩
        none (fun _ => false)).evidence = some e ∧
      e.links.npmDiffLink =
        some ("npm diff --diff " ++ "lodash" ++ "@" ++ "4.17.20" ++
          " --diff " ++ "lodash" ++ "@" ++ "4.17.21") := by
  exact buildCandidateEvidence_correct.2
    ⟨"lodash", some "4.17.20", some "4.17.21"⟩ none (fun _ => false)
    "4.17.20" "4.17.21" rfl (by decide) rfl (by decide)

/-- C6 counterexample: an empty installed version string is non-null, so
the claim promises an npm diff link and non-null evidence; but the
truthiness guard treats the empty string as missing, and with no registry
data the evidence is null. -/
theorem buildCandidateEvidence_claim_counterexample :
    (buildCandidateEvidence ⟨"lodash", some "", some "1.0.0"⟩
        none (fun _ => false)).evidence = none ∧
    (some "" : Option String) ≠ none ∧
    (some "1.0.0" : Option String) ≠ none := by
  refine ⟨by decide, by decide, by decide⟩

/-- A key already cached never issues another network call. -/
theorem issuedCount_zero_of_mem (key : String) :
    ∀ accesses cache, key ∈ cache →
      issuedCount (runCacheAccesses cache accesses) key = 0 := by
  intro accesses
  induction accesses with
  | nil =>
    intro cache _
    rfl
  | cons k rest ih =>
    intro cache hmem
    simp only [runCacheAccesses, cacheAccess]
    by_cases hk : k ∈ cache
    · simp only [hk, if_true]
      simp only [issuedCount, List.filter_cons]
      have : ¬((k, false).1 = key ∧ (k, false).2 = true) := by simp
      rw [if_neg (by simpa using this)]
      exact ih cache hmem
    · simp only [hk, if_false]
      simp only [issuedCount, List.filter_cons]
      have hkne : k ≠ key := fun h => hk (h ▸ hmem)
      have : ¬((k, true).1 = key ∧ (k, true).2 = true) := by simp [hkne]
      rw [if_neg (by simpa using this)]
      exact ih (k :: cache) (List.mem_cons_of_mem _ hmem)

/-- Any access sequence issues at most one network call per key. -/
theorem issuedCount_le_one (key : String) :
    ∀ accesses cache, issuedCount (runCacheAccesses cache accesses) key ≤ 1 := by
  intro accesses
  induction accesses with
  | nil =>
    intro cache
    exact Nat.zero_le 1
  | cons k rest ih =>
    intro cache
    simp only [runCacheAccesses, cacheAccess]
    by_cases hk : k ∈ cache
    · simp only [hk, if_true]
      simp only [issuedCount, List.filter_cons]
      have : ¬((k, false).1 = key ∧ (k, false).2 = true) := by simp
      rw [if_neg (by simpa using this)]
      exact ih cache
    · simp only [hk, if_false]
      by_cases hkey : k = key
      · subst hkey
        simp only [issuedCount, List.filter_cons]
        rw [if_pos (by simp)]
        simp only [List.length_cons]
        have hzero := issuedCount_zero_of_mem k rest (k :: cache)
          (List.mem_cons_self _ _)
        simp only [issuedCount] at hzero
        omega
      · simp only [issuedCount, List.filter_cons]
        have : ¬((k, true).1 = key ∧ (k, true).2 = true) := by simp [hkey]
        rw [if_neg (by simpa using this)]
        exact ih (k :: cache)

/-- C7: within one collectCandidateEvidence batch, starting from the
fresh per-batch caches, at most one registry-metadata fetch is issued per
unique package name — the batch accesses the registry cache once per
candidate, keyed by package name, in input order — and at most one
reachability probe is issued per unique URL, whatever the interleaving of
the URL cache accesses of the concurrently pending tasks. -/
theorem collectCandidateEvidence_dedup :
    (∀ inputs key,
      issuedCount (runCacheAccesses [] (collectRegistryAccesses inputs))
        key ≤ 1) ∧
    (∀ urlAccesses key,
      issuedCount (runCacheAccesses [] urlAccesses) key ≤ 1) := by
  constructor
  · intro inputs key
    exact issuedCount_le_one key (collectRegistryAccesses inputs) []
  · intro urlAccesses key
    exact issuedCount_le_one key urlAccesses []

/-- The dependency type rank is injective. -/
theorem dependencyTypeOrder_indexOf_inj :
    ∀ d e : DependencyType,
      dependencyTypeOrder.indexOf d = dependencyTypeOrder.indexOf e → d = e := by
  intro d e
  cases d <;> cases e <;> decide

/-- The candidate comparator is transitive for a lawful localeCompare
oracle. -/
theorem cmpCandidate_trans (lc : String → String → Int)
    (hTrans : ∀ a b c, lc a b ≤ 0 → lc b c ≤ 0 → lc a c ≤ 0)
    (hAnti : ∀ a b, lc a b ≤ 0 → lc b a ≤ 0 → a = b) :
    ∀ a b c, cmpCandidate lc a b ≤ 0 → cmpCandidate lc b c ≤ 0 →
      cmpCandidate lc a c ≤ 0 := by
  intro a b c hab hbc
  unfold cmpCandidate at *
  by_cases hfab : a.packageFile = b.packageFile
  · rw [if_neg (not_not_intro hfab)] at hab
    by_cases hfbc : b.packageFile = c.packageFile
    · rw [if_neg (not_not_intro hfbc)] at hbc
      rw [if_neg (not_not_intro (hfab.trans hfbc))]
      by_cases hdab : a.dependencyType = b.dependencyType
      · rw [if_neg (not_not_intro hdab)] at hab
        by_cases hdbc : b.dependencyType = c.dependencyType
        · rw [if_neg (not_not_intro hdbc)] at hbc
          rw [if_neg (not_not_intro (hdab.trans hdbc))]
          exact hTrans _ _ _ hab hbc
        · rw [if_pos hdbc] at hbc
          rw [if_pos (fun h => hdbc (hdab.symm.trans h))]
          rw [← hdab] at hbc
          exact hbc
      · rw [if_pos hdab] at hab
        by_cases hdbc : b.dependencyType = c.dependencyType
        · rw [if_pos (fun h => hdab (h.trans hdbc.symm))]
          rw [← hdbc]
          exact hab
        · rw [if_pos hdbc] at hbc
          by_cases hdac : a.dependencyType = c.dependencyType
          · exfalso
            have hrac : (dependencyTypeOrder.indexOf a.dependencyType : Int) =
                (dependencyTypeOrder.indexOf c.dependencyType : Int) := by
              rw [hdac]
            have hrab : dependencyTypeOrder.indexOf a.dependencyType =
                dependencyTypeOrder.indexOf b.dependencyType := by omega
            exact hdab (dependencyTypeOrder_indexOf_inj _ _ hrab)
          · rw [if_pos hdac]
            omega
    · rw [if_pos hfbc] at hbc
      by_cases hfac : a.packageFile = c.packageFile
      · exfalso
        exact hfbc (hfab.symm.trans hfac)
      · rw [if_pos hfac]
        rw [← hfab] at hbc
        exact hbc
  · rw [if_pos hfab] at hab
    by_cases hfbc : b.packageFile = c.packageFile
    · by_cases hfac : a.packageFile = c.packageFile
      · exfalso
        exact hfab (hfac.trans hfbc.symm)
      · rw [if_pos hfac]
        rw [← hfbc]
        exact hab
    · rw [if_pos hfbc] at hbc
      by_cases hfac : a.packageFile = c.packageFile
      · exfalso
        rw [← hfac] at hbc
        exact hfab (hAnti _ _ hab hbc)
      · rw [if_pos hfac]
        exact hTrans _ _ _ hab hbc

/-- The candidate comparator is total for a total localeCompare oracle. -/
theorem cmpCandidate_total (lc : String → String → Int)
    (hTotal : ∀ a b, lc a b ≤ 0 ∨ lc b a ≤ 0) :
    ∀ a b, cmpCandidate lc a b ≤ 0 ∨ cmpCandidate lc b a ≤ 0 := by
  intro a b
  unfold cmpCandidate
  by_cases hf : a.packageFile = b.packageFile
  · rw [if_neg (not_not_intro hf), if_neg (not_not_intro hf.symm)]
    by_cases hd : a.dependencyType = b.dependencyType
    · rw [if_neg (not_not_intro hd), if_neg (not_not_intro hd.symm)]
      exact hTotal _ _
    · rw [if_pos hd, if_pos (fun h => hd h.symm)]
      omega
  · rw [if_pos hf, if_pos (fun h => hf h.symm)]
    exact hTotal _ _

/-- The concrete comparator orders strings by the linear order. -/
theorem lcCode_le_iff (a b : String) : lcCode a b ≤ 0 ↔ a ≤ b := by
  unfold lcCode
  split_ifs with h1 h2
  · simp [le_of_lt h1]
  · simp [le_of_eq h2]
  · have hba : b < a := lt_of_le_of_ne (not_lt.mp h1) (fun h => h2 h.symm)
    constructor
    · intro h
      exact absurd h (by decide)
    · intro h
      exact absurd h (not_le.mpr hba)

/-- The concrete comparator is total. -/
theorem lcCode_total : ∀ a b, lcCode a b ≤ 0 ∨ lcCode b a ≤ 0 := by
  intro a b
  rw [lcCode_le_iff, lcCode_le_iff]
  exact le_total a b

/-- The concrete comparator is transitive. -/
theorem lcCode_trans : ∀ a b c, lcCode a b ≤ 0 → lcCode b c ≤ 0 →
    lcCode a c ≤ 0 := by
  intro a b c
  rw [lcCode_le_iff, lcCode_le_iff, lcCode_le_iff]
  exact le_trans

/-- The concrete comparator is antisymmetric. -/
theorem lcCode_anti : ∀ a b, lcCode a b ≤ 0 → lcCode b a ≤ 0 → a = b := by
  intro a b
  rw [lcCode_le_iff, lcCode_le_iff]
  exact le_antisymm

/-- C8: for every lawful localeCompare oracle, sortCandidates returns a
permutation of its input that is pairwise ordered by the comparator —
packageFile ascending, then dependencyType in the fixed
dependencies-devDependencies-unknown order, then packageName ascending —
and the with-evidence step attaches to every candidate exactly the
evidence computed from that candidate, positionally, so the merged list
does not depend on the order in which evidence resolutions complete. -/
theorem sortCandidates_and_attach_correct :
    (∀ lc : String → String → Int,
      (∀ a b, lc a b ≤ 0 ∨ lc b a ≤ 0) →
      (∀ a b c, lc a b ≤ 0 → lc b c ≤ 0 → lc a c ≤ 0) →
      (∀ a b, lc a b ≤ 0 → lc b a ≤ 0 → a = b) →
      ∀ candidates,
        (sortCandidates lc candidates).Perm candidates ∧
        (sortCandidates lc candidates).Pairwise
          (fun a b => cmpCandidate lc a b ≤ 0)) ∧
    (∀ registryOf reachable candidates,
      candidatesWithEvidence candidates registryOf reachable =
        candidates.map fun c =>
          ⟨c, (buildCandidateEvidence (toEvidenceInput c)
                (registryOf c.packageName) reachable).versionWindow,
              (buildCandidateEvidence (toEvidenceInput c)
                (registryOf c.packageName) reachable).evidence⟩) := by
  constructor
  · intro lc hTotal hTrans hAnti candidates
    constructor
    · exact sortLe_perm _ _
    · have htransB : ∀ x y z : NextUpdatesCandidateBase,
          decide (cmpCandidate lc x y ≤ 0) = true →
          decide (cmpCandidate lc y z ≤ 0) = true →
          decide (cmpCandidate lc x z ≤ 0) = true := by
        intro x y z hxy hyz
        exact decide_eq_true (cmpCandidate_trans lc hTrans hAnti x y z
          (of_decide_eq_true hxy) (of_decide_eq_true hyz))
      have htotalB : ∀ x y : NextUpdatesCandidateBase,
          decide (cmpCandidate lc x y ≤ 0) = true ∨
            decide (cmpCandidate lc y x ≤ 0) = true := by
        intro x y
        rcases cmpCandidate_total lc hTotal x y with h | h
        · exact Or.inl (decide_eq_true h)
        · exact Or.inr (decide_eq_true h)
      have hb := sortLe_pairwise htransB htotalB candidates
      exact hb.imp fun h => of_decide_eq_true h
  · intro registryOf reachable candidates
    induction candidates with
    | nil => rfl
    | cons c rest ih =>
      simp only [candidatesWithEvidence, collectCandidateEvidence,
        attachEvidence, List.map_cons, List.zipWith_cons_cons,
        List.cons.injEq] at ih ⊢
      exact ⟨rfl, ih⟩

/-- Witness for C8 at a concrete input: with the concrete string order, a
two-candidate list is sorted into a permutation pairwise ordered by the
comparator. -/
theorem sortCandidates_and_attach_correct_witness :
    (sortCandidates lcCode
        [⟨"package.json", .devDependencies, "vitest", ⟨"", none⟩, ⟨"", none⟩⟩,
         ⟨"package.json", .dependencies, "lodash", ⟨"", none⟩, ⟨"", none⟩⟩]).Perm
      [⟨"package.json", .devDependencies, "vitest", ⟨"", none⟩, ⟨"", none⟩⟩,
       ⟨"package.json", .dependencies, "lodash", ⟨"", none⟩, ⟨"", none⟩⟩] ∧
    (sortCandidates lcCode
        [⟨"package.json", .devDependencies, "vitest", ⟨"", none⟩, ⟨"", none⟩⟩,
         ⟨"package.json", .dependencies, "lodash", ⟨"", none⟩, ⟨"", none⟩⟩]).Pairwise
      (fun a b => cmpCandidate lcCode a b ≤ 0) := by
  exact sortCandidates_and_attach_correct.1 lcCode lcCode_total lcCode_trans
    lcCode_anti _
